import Mathlib

/-!
Verification of the moor server core against its specification.

The development shallowly embeds the Rust sources:
  * `src/db/relations.rs`          — the MVCC 2-ary `Relation` and its transactions;
  * `moor-value/src/var/varops.rs` — the `Var` value operations;
  * `crates/kernel/src/vm/vm_execute.rs` — the opcode interpreter loop;
  * `moor-lib/src/vm/vm_unwind.rs` — `FinallyReason` and stack unwinding;
  * `crates/db/src/tuplebox/tuples/slotbox.rs` — the slot allocator free path.

Machine integers are embedded as `Nat` / `Int` with explicit reduction
modulo `2 ^ 64` where the Rust release-profile two's-complement wrap-around
matters; a Rust `panic!` is represented by an explicit `crash` outcome.
Definitions that embed code whose source file is not available (only its
callers are) carry a doc comment starting with `Modelled from the spec:`.
-/

set_option autoImplicit false
set_option linter.unusedSectionVars false

namespace Moor

/-! ### Association-list maps

Stand-ins for the source's `HashMap` / `BTreeMap`: `lookupA` finds the
first binding of a key, `insertA` replaces it (or appends a new binding),
`removeA` drops it. -/

def lookupA {κ α : Type} [DecidableEq κ] : List (κ × α) → κ → Option α
  | [], _ => none
  | (k1, v) :: t, k => if k1 = k then some v else lookupA t k

def insertA {κ α : Type} [DecidableEq κ] : List (κ × α) → κ → α → List (κ × α)
  | [], k, v => [(k, v)]
  | (k1, v1) :: t, k, v => if k1 = k then (k, v) :: t else (k1, v1) :: insertA t k v

def removeA {κ α : Type} [DecidableEq κ] : List (κ × α) → κ → List (κ × α)
  | [], _ => []
  | (k1, v1) :: t, k => if k1 = k then t else (k1, v1) :: removeA t k

theorem lookupA_insertA_self {κ α : Type} [DecidableEq κ] (l : List (κ × α)) (k : κ) (v : α) :
    lookupA (insertA l k v) k = some v := by
  induction l with
  | nil => simp [insertA, lookupA]
  | cons h t ih =>
    obtain ⟨k1, v1⟩ := h
    by_cases hk : k1 = k
    · simp [insertA, hk, lookupA]
    · simp [insertA, hk, lookupA, ih]

theorem lookupA_insertA_ne {κ α : Type} [DecidableEq κ] (l : List (κ × α)) (k k1 : κ) (v : α)
    (h : k1 ≠ k) : lookupA (insertA l k v) k1 = lookupA l k1 := by
  induction l with
  | nil => simp [insertA, lookupA, Ne.symm h]
  | cons hd t ih =>
    obtain ⟨k2, v2⟩ := hd
    by_cases hk : k2 = k
    · subst hk
      simp [insertA, lookupA, Ne.symm h]
    · by_cases hk1 : k2 = k1 <;> simp [insertA, hk, lookupA, hk1, ih, h]

theorem lookupA_mem {κ α : Type} [DecidableEq κ] (l : List (κ × α)) (k : κ) (v : α)
    (h : lookupA l k = some v) : (k, v) ∈ l := by
  induction l with
  | nil => simp [lookupA] at h
  | cons hd t ih =>
    obtain ⟨k1, v1⟩ := hd
    by_cases hk : k1 = k
    · subst hk
      simp [lookupA] at h
      simp [h]
    · simp [lookupA, hk] at h
      exact List.mem_cons_of_mem _ (ih h)

/-! ### MVCC tuples (`src/db/tx.rs`, not among the provided sources)

`Relation` in `src/db/relations.rs` is written against `crate::db::tx`:
`Tx`, `EntryValue`, `MvccTuple` with operations `get`, `set`, `delete`,
`can_commit`, `do_commit`, `rollback`, and `CommitCheckResult`.  That file
is not part of the provided sources, so the types below are modelled from
the specification (snapshot isolation, first-committer-wins commit
validation) and are pinned by the unit tests that ship inside
`relations.rs` itself. -/

/-- Transaction handle: `Tx::new(tx_id, tx_start_ts)`. -/
structure Tx where
  tx_id : Nat
  tx_start_ts : Nat
deriving DecidableEq

/-- A version payload: a live value or a deletion marker. -/
inductive EntryValue (V : Type) where
  | val (v : V)
  | tombstone
deriving DecidableEq

def EntryValue.toOption {V : Type} : EntryValue V → Option V
  | .val v => some v
  | .tombstone => none

/-- Modelled from the spec: one version of a tuple.  A committed version has
`owner = none` and `ts` its commit timestamp; an uncommitted version has
`owner = some txid` and `ts` the read timestamp (`old_ts`) of the committed
version it was derived from, matching the spec's
`Update(old_ts, ...)` / `Tombstone(old_ts)` working-set entries. -/
structure MvccEntry (V : Type) where
  owner : Option Nat
  ts : Nat
  value : EntryValue V
deriving DecidableEq

/-- Modelled from the spec: a multi-version tuple, newest versions at the
end of the list. -/
structure MvccTuple (V : Type) where
  versions : List (MvccEntry V)
deriving DecidableEq

inductive CommitCheckResult where
  | canCommit (pos : Nat)
  | conflict
  | none
deriving DecidableEq

/-- Fold step choosing, among committed versions with `ts ≤ s`, the one
with the greatest timestamp (later list positions win ties). -/
def laterVisible {V : Type} (s : Nat) (acc : Option (MvccEntry V)) (e : MvccEntry V) :
    Option (MvccEntry V) :=
  if e.owner = Option.none ∧ e.ts ≤ s then
    match acc with
    | Option.none => some e
    | some a => if a.ts ≤ e.ts then some e else some a
  else acc

/-- Modelled from the spec (invariant I4): the committed version a
transaction begun at snapshot timestamp `s` observes. -/
def visibleAt {V : Type} (s : Nat) (vs : List (MvccEntry V)) : Option (MvccEntry V) :=
  vs.foldl (laterVisible s) Option.none

/-- Index and entry of the first version owned by `txid`, if any. -/
def findOwnIdx {V : Type} (txid : Nat) : List (MvccEntry V) → Option (Nat × MvccEntry V)
  | [] => Option.none
  | e :: t =>
    if e.owner = some txid then some (0, e)
    else (findOwnIdx txid t).map (fun p => (p.1 + 1, p.2))

/-- Replace the version owned by `txid` (a transaction keeps a single
working-set entry per tuple, per the spec), or append a fresh one. -/
def setOwn {V : Type} (txid : Nat) (e : MvccEntry V) : List (MvccEntry V) → List (MvccEntry V)
  | [] => [e]
  | e1 :: t => if e1.owner = some txid then e :: t else e1 :: setOwn txid e t

/-- Modelled from the spec: `MvccTuple::new(ts, value)` — a tuple with a
single committed version at timestamp `ts`. -/
def MvccTuple.new {V : Type} (ts : Nat) (v : EntryValue V) : MvccTuple V :=
  ⟨[⟨Option.none, ts, v⟩]⟩

/-- Modelled from the spec: `MvccTuple::get` — read-your-writes (the
caller's own uncommitted version wins), otherwise the committed version
visible at snapshot `s`.  The Rust call sites pass `tx.tx_start_ts`; the
owner check additionally needs the transaction id, which every call site
has in scope. Returns the pair `(rts, value)`. -/
def MvccTuple.get {V : Type} (t : MvccTuple V) (txid s : Nat) : Nat × Option V :=
  match findOwnIdx txid t.versions with
  | some (_, e) => (e.ts, e.value.toOption)
  | Option.none =>
    match visibleAt s t.versions with
    | some e => (e.ts, e.value.toOption)
    | Option.none => (0, Option.none)

/-- Modelled from the spec: `MvccTuple::set(tx_id, rts, value)` records an
uncommitted version derived from read timestamp `rts`. -/
def MvccTuple.set {V : Type} (t : MvccTuple V) (txid rts : Nat) (v : V) : MvccTuple V :=
  ⟨setOwn txid ⟨some txid, rts, .val v⟩ t.versions⟩

/-- Modelled from the spec: `MvccTuple::delete(tx_id, rts)` records an
uncommitted tombstone derived from read timestamp `rts`. -/
def MvccTuple.delete {V : Type} (t : MvccTuple V) (txid rts : Nat) : MvccTuple V :=
  ⟨setOwn txid ⟨some txid, rts, .tombstone⟩ t.versions⟩

/-- Modelled from the spec: commit validation.  The transaction's version
conflicts iff some committed version has a write timestamp newer than the
`old_ts` the transaction derived its version from ("canonical must contain
`d`, and its tuple's write-ts must equal `old_ts`, else
`Conflict::StaleWrite`" — first committer wins). -/
def MvccTuple.can_commit {V : Type} (t : MvccTuple V) (txid : Nat) : CommitCheckResult :=
  match findOwnIdx txid t.versions with
  | Option.none => .none
  | some (i, e) =>
    if t.versions.any (fun c => decide (c.owner = Option.none ∧ e.ts < c.ts)) then .conflict
    else .canCommit i

/-- Commit the version at index `pos`: it becomes a committed version with
a fresh write timestamp strictly after the committer's snapshot. -/
def commitAt {V : Type} (s : Nat) : Nat → List (MvccEntry V) → List (MvccEntry V)
  | _, [] => []
  | 0, e :: t => ⟨Option.none, s + 1, e.value⟩ :: t
  | n + 1, e :: t => e :: commitAt s n t

/-- Modelled from the spec: `MvccTuple::do_commit(tx_start_ts, position)`
publishes the checked version ("set its `ts` to `s' = oracle.next()`"). -/
def MvccTuple.do_commit {V : Type} (t : MvccTuple V) (tx_start_ts pos : Nat) : MvccTuple V :=
  ⟨commitAt tx_start_ts pos t.versions⟩

/-- Modelled from the spec: `MvccTuple::rollback(tx_id)` destroys the
transaction's uncommitted versions. -/
def MvccTuple.rollback {V : Type} (t : MvccTuple V) (txid : Nat) : MvccTuple V :=
  ⟨t.versions.filter (fun e => !decide (e.owner = some txid))⟩

/-! ### The 2-ary relation (`src/db/relations.rs`)

`RelationInner` holds the tuple versions, the mandatory domain index, the
optional codomain index, and the per-transaction commit sets.  The Rust
methods mutate the relation in place behind a lock and return a `Result`;
the embedding threads the state explicitly and adds a `crash` outcome for
the `unwrap` / `expect` panics (all unreachable when the indexes are
sound). -/

inductive RelErr where
  | notFound
  | duplicate
  | conflict
deriving DecidableEq

inductive DbOut where
  | ok
  | err (e : RelErr)
  | crash
deriving DecidableEq

structure RelationState (L R : Type) where
  next_tuple_id : Nat
  values : List (Nat × MvccTuple (L × R))
  l_index : List (L × Nat)
  r_index : Option (List (R × List Nat))
  commit_sets : List (Nat × List Nat)
deriving DecidableEq

namespace Relation

variable {L R : Type} [DecidableEq L] [DecidableEq R]

/-- `r_index.entry(r).or_insert_with(Default::default).insert(tuple_id)`. -/
def rIndexAdd (ri : List (R × List Nat)) (r : R) (tid : Nat) : List (R × List Nat) :=
  match lookupA ri r with
  | some s => insertA ri r (if tid ∈ s then s else s ++ [tid])
  | Option.none => insertA ri r [tid]

/-- `r_index.entry(r).and_modify(|s| s.remove(&tuple_id))` (no-op when the
codomain key is absent). -/
def rIndexModifyRemove (ri : List (R × List Nat)) (r : R) (tid : Nat) : List (R × List Nat) :=
  match lookupA ri r with
  | some s => insertA ri r (s.filter (fun x => !decide (x = tid)))
  | Option.none => ri

/-- `r_index.entry(r).or_insert_with(Default::default).remove(&tuple_id)`
(creates an empty set first when the codomain key is absent). -/
def rIndexEnsureRemove (ri : List (R × List Nat)) (r : R) (tid : Nat) : List (R × List Nat) :=
  match lookupA ri r with
  | some s => insertA ri r (s.filter (fun x => !decide (x = tid)))
  | Option.none => insertA ri r []

/-- The source's `if let Some(r_index) = &mut inner.r_index { ... }`
pattern: apply `f` to the secondary index when the relation has one. -/
def withRIndex (st : RelationState L R) (f : List (R × List Nat) → List (R × List Nat)) :
    RelationState L R :=
  match st.r_index with
  | some ri => { st with r_index := some (f ri) }
  | Option.none => st

@[simp] theorem withRIndex_values (st : RelationState L R) (f : List (R × List Nat) → List (R × List Nat)) :
    (withRIndex st f).values = st.values := by
  unfold withRIndex; cases st.r_index <;> rfl

@[simp] theorem withRIndex_l_index (st : RelationState L R) (f : List (R × List Nat) → List (R × List Nat)) :
    (withRIndex st f).l_index = st.l_index := by
  unfold withRIndex; cases st.r_index <;> rfl

@[simp] theorem withRIndex_commit_sets (st : RelationState L R) (f : List (R × List Nat) → List (R × List Nat)) :
    (withRIndex st f).commit_sets = st.commit_sets := by
  unfold withRIndex; cases st.r_index <;> rfl

@[simp] theorem withRIndex_next_tuple_id (st : RelationState L R) (f : List (R × List Nat) → List (R × List Nat)) :
    (withRIndex st f).next_tuple_id = st.next_tuple_id := by
  unfold withRIndex; cases st.r_index <;> rfl

/-- `RelationInner::add_to_commit_set`. -/
def add_to_commit_set (tx : Tx) (tid : Nat) (st : RelationState L R) : RelationState L R :=
  match lookupA st.commit_sets tx.tx_id with
  | some c => { st with commit_sets := insertA st.commit_sets tx.tx_id (c ++ [tid]) }
  | Option.none => { st with commit_sets := insertA st.commit_sets tx.tx_id [tid] }

/-- `Relation::insert`. -/
def insert (tx : Tx) (l : L) (r : R) (st : RelationState L R) : DbOut × RelationState L R :=
  match lookupA st.l_index l with
  | some tid =>
    match lookupA st.values tid with
    | Option.none => (.crash, st)
    | some tuple =>
      let rv := tuple.get tx.tx_id tx.tx_start_ts
      match rv.2 with
      | some _ => (.err .duplicate, st)
      | Option.none =>
        let tuple1 := tuple.set tx.tx_id rv.1 (l, r)
        let st1 := { st with values := insertA st.values tid tuple1 }
        let st2 := withRIndex st1 (fun ri => rIndexAdd ri r tid)
        (.ok, add_to_commit_set tx tid st2)
  | Option.none =>
    let tid := st.next_tuple_id
    let tuple0 : MvccTuple (L × R) := MvccTuple.new tx.tx_start_ts .tombstone
    let tuple1 := tuple0.set tx.tx_id tx.tx_start_ts (l, r)
    let st1 := { st with
      next_tuple_id := st.next_tuple_id + 1
      values := insertA st.values tid tuple1
      l_index := insertA st.l_index l tid }
    let st2 := withRIndex st1 (fun ri => rIndexAdd ri r tid)
    (.ok, add_to_commit_set tx tid st2)

/-- `Relation::remove_for_l`. -/
def remove_for_l (tx : Tx) (l : L) (st : RelationState L R) : DbOut × RelationState L R :=
  match lookupA st.l_index l with
  | some tid =>
    match lookupA st.values tid with
    | Option.none => (.crash, st)
    | some tuple =>
      let rv := tuple.get tx.tx_id tx.tx_start_ts
      match rv.2 with
      | Option.none => (.err .notFound, st)
      | some value =>
        let tuple1 := tuple.delete tx.tx_id rv.1
        let st1 := add_to_commit_set tx tid { st with values := insertA st.values tid tuple1 }
        (.ok, withRIndex st1 (fun ri => rIndexModifyRemove ri value.2 tid))
  | Option.none => (.err .notFound, st)

/-- `Relation::update_r`. -/
def update_r (tx : Tx) (l : L) (new_r : R) (st : RelationState L R) :
    DbOut × RelationState L R :=
  match lookupA st.l_index l with
  | some tid =>
    match lookupA st.values tid with
    | Option.none => (.crash, st)
    | some tuple =>
      let rv := tuple.get tx.tx_id tx.tx_start_ts
      match rv.2 with
      | Option.none => (.err .notFound, st)
      | some old_value =>
        let tuple1 := tuple.set tx.tx_id rv.1 (l, new_r)
        let st1 := add_to_commit_set tx tid { st with values := insertA st.values tid tuple1 }
        (.ok, withRIndex st1 (fun ri => rIndexAdd (rIndexEnsureRemove ri old_value.2 tid) new_r tid))
  | Option.none => (.err .notFound, st)

/-- `Relation::seek_for_l_eq`.  The source `unwrap`s the tuple referenced
by the domain index; that panic is unreachable when the index is sound and
is mapped to `none` here. -/
def seek_for_l_eq (tx : Tx) (k : L) (st : RelationState L R) : Option R :=
  match lookupA st.l_index k with
  | some tid =>
    match lookupA st.values tid with
    | some tuple => (tuple.get tx.tx_id tx.tx_start_ts).2.map (fun v => v.2)
    | Option.none => Option.none
  | Option.none => Option.none

/-- `Relation::seek_for_r_eq`.  Returns `none` for the source's panic on a
relation without a secondary index; otherwise the set of visible domain
values (list order immaterial, the source collects into a `BTreeSet`). -/
def seek_for_r_eq (tx : Tx) (rv : R) (st : RelationState L R) : Option (List L) :=
  match st.r_index with
  | Option.none => Option.none
  | some ri =>
    match lookupA ri rv with
    | Option.none => some []
    | some tids =>
      some (tids.filterMap (fun tid =>
        match lookupA st.values tid with
        | some tuple => (tuple.get tx.tx_id tx.tx_start_ts).2.map (fun v => v.1)
        | Option.none => Option.none))

/-- First pass of `Relation::commit`: run `can_commit` over the commit
set, collecting the committable `(tuple_id, version_offset)` pairs and
whether any check conflicted.  `none` models the source's `expect` panic
on a commit-set entry missing from `values`. -/
def checkCommitSet (txid : Nat) (values : List (Nat × MvccTuple (L × R))) :
    List Nat → Option (Bool × List (Nat × Nat))
  | [] => some (true, [])
  | tid :: rest =>
    match lookupA values tid with
    | Option.none => Option.none
    | some tuple =>
      match checkCommitSet txid values rest with
      | Option.none => Option.none
      | some (can, vsn) =>
        match tuple.can_commit txid with
        | .canCommit off => some (can, (tid, off) :: vsn)
        | .conflict => some (false, vsn)
        | .none => some (can, vsn)

/-- Second pass of `Relation::commit`: apply `do_commit` at each collected
position. -/
def applyCommits (s : Nat) (values : List (Nat × MvccTuple (L × R))) :
    List (Nat × Nat) → Option (List (Nat × MvccTuple (L × R)))
  | [] => some values
  | (tid, pos) :: rest =>
    match lookupA values tid with
    | Option.none => Option.none
    | some t => applyCommits s (insertA values tid (t.do_commit s pos)) rest

/-- `Relation::rollback`'s per-tuple loop. -/
def rollbackTuples (txid : Nat) (values : List (Nat × MvccTuple (L × R))) :
    List Nat → Option (List (Nat × MvccTuple (L × R)))
  | [] => some values
  | tid :: rest =>
    match lookupA values tid with
    | Option.none => Option.none
    | some t => rollbackTuples txid (insertA values tid (t.rollback txid)) rest

/-- `Relation::rollback`. -/
def rollback (tx : Tx) (st : RelationState L R) : DbOut × RelationState L R :=
  match lookupA st.commit_sets tx.tx_id with
  | Option.none => (.ok, st)
  | some cs =>
    match rollbackTuples tx.tx_id st.values cs with
    | Option.none => (.crash, st)
    | some values1 =>
      (.ok, { st with values := values1, commit_sets := removeA st.commit_sets tx.tx_id })

/-- `Relation::commit`: validate every dirtied tuple, roll back and report
`Conflict` if any check fails, otherwise publish all versions.  A
successful commit leaves the commit set in place, exactly as the source
does. -/
def commit (tx : Tx) (st : RelationState L R) : DbOut × RelationState L R :=
  match lookupA st.commit_sets tx.tx_id with
  | Option.none => (.ok, st)
  | some cs =>
    match checkCommitSet tx.tx_id st.values cs with
    | Option.none => (.crash, st)
    | some (can, vsn) =>
      if can then
        match applyCommits tx.tx_start_ts st.values vsn with
        | Option.none => (.crash, st)
        | some values1 => (.ok, { st with values := values1 })
      else
        let rb := rollback tx st
        match rb.1 with
        | .ok => (.err .conflict, rb.2)
        | _ => (.crash, rb.2)

/-- A quiescent relation: no transaction in flight — every version of
every tuple is committed and all commit sets are empty. -/
def quiescent (st : RelationState L R) : Bool :=
  st.values.all (fun p => p.2.versions.all (fun e => decide (e.owner = Option.none)))
    && st.commit_sets.isEmpty

end Relation

/-! ### Facts about the MVCC version lists -/

theorem foldl_laterVisible_sound {V : Type} (s : Nat) (vs : List (MvccEntry V)) :
    ∀ (acc : Option (MvccEntry V)) (a : MvccEntry V),
      vs.foldl (laterVisible s) acc = some a →
      acc = some a ∨ (a ∈ vs ∧ a.owner = Option.none ∧ a.ts ≤ s) := by
  induction vs with
  | nil => intro acc a h; exact Or.inl h
  | cons e t ih =>
    intro acc a h
    simp only [List.foldl_cons] at h
    rcases ih (laterVisible s acc e) a h with h1 | h1
    · unfold laterVisible at h1
      by_cases hc : e.owner = Option.none ∧ e.ts ≤ s
      · rw [if_pos hc] at h1
        cases acc with
        | none =>
          cases h1
          exact Or.inr ⟨List.mem_cons_self _ _, hc.1, hc.2⟩
        | some a0 =>
          change (if a0.ts ≤ e.ts then some e else some a0) = some a at h1
          by_cases hts : a0.ts ≤ e.ts
          · rw [if_pos hts] at h1
            cases h1
            exact Or.inr ⟨List.mem_cons_self _ _, hc.1, hc.2⟩
          · rw [if_neg hts] at h1
            exact Or.inl h1
      · rw [if_neg hc] at h1
        exact Or.inl h1
    · exact Or.inr ⟨List.mem_cons_of_mem _ h1.1, h1.2⟩

theorem visibleAt_sound {V : Type} (s : Nat) (vs : List (MvccEntry V)) (a : MvccEntry V)
    (h : visibleAt s vs = some a) : a ∈ vs ∧ a.owner = Option.none ∧ a.ts ≤ s := by
  rcases foldl_laterVisible_sound s vs Option.none a h with h1 | h1
  · cases h1
  · exact h1

theorem visibleAt_append_one {V : Type} (s : Nat) (vs : List (MvccEntry V)) (e : MvccEntry V) :
    visibleAt s (vs ++ [e]) = laterVisible s (visibleAt s vs) e := by
  unfold visibleAt
  rw [List.foldl_append]
  rfl

theorem visibleAt_append_uncommitted {V : Type} (s : Nat) (vs : List (MvccEntry V))
    (e : MvccEntry V) (he : ¬ e.owner = Option.none) :
    visibleAt s (vs ++ [e]) = visibleAt s vs := by
  rw [visibleAt_append_one]
  unfold laterVisible
  rw [if_neg (fun hc => he hc.1)]

/-- A committed version strictly newer than every committed version of the
prefix, and visible at `s`, is the one chosen by `visibleAt`. -/
theorem visibleAt_append_wins {V : Type} (s b : Nat) (vs : List (MvccEntry V))
    (e : MvccEntry V) (hvs : ∀ c ∈ vs, c.owner = Option.none → c.ts ≤ b)
    (he : e.owner = Option.none) (hb : b < e.ts) (hs : e.ts ≤ s) :
    visibleAt s (vs ++ [e]) = some e := by
  rw [visibleAt_append_one]
  unfold laterVisible
  rw [if_pos ⟨he, hs⟩]
  cases hv : visibleAt s vs with
  | none => rfl
  | some a =>
    have hsnd := visibleAt_sound s vs a hv
    have hts : a.ts ≤ e.ts := le_trans (hvs a hsnd.1 hsnd.2.1) (le_of_lt hb)
    change (if a.ts ≤ e.ts then some e else some a) = some e
    rw [if_pos hts]

theorem findOwnIdx_all_not {V : Type} (txid : Nat) (vs : List (MvccEntry V))
    (h : ∀ c ∈ vs, ¬ c.owner = some txid) : findOwnIdx txid vs = Option.none := by
  induction vs with
  | nil => rfl
  | cons e t ih =>
    unfold findOwnIdx
    rw [if_neg (h e (List.mem_cons_self _ _)), ih (fun c hc => h c (List.mem_cons_of_mem _ hc))]
    rfl

theorem findOwnIdx_append_own {V : Type} (txid : Nat) (vs : List (MvccEntry V))
    (e : MvccEntry V) (rest : List (MvccEntry V))
    (h : ∀ c ∈ vs, ¬ c.owner = some txid) (he : e.owner = some txid) :
    findOwnIdx txid (vs ++ e :: rest) = some (vs.length, e) := by
  induction vs with
  | nil => simp [findOwnIdx, he]
  | cons c t ih =>
    have hc : ¬ c.owner = some txid := h c (List.mem_cons_self _ _)
    have ih1 := ih (fun c1 hc1 => h c1 (List.mem_cons_of_mem _ hc1))
    simp only [List.cons_append, findOwnIdx, if_neg hc, List.append_eq, ih1, List.length_cons]
    rfl

theorem setOwn_all_not {V : Type} (txid : Nat) (e : MvccEntry V) (vs : List (MvccEntry V))
    (h : ∀ c ∈ vs, ¬ c.owner = some txid) : setOwn txid e vs = vs ++ [e] := by
  induction vs with
  | nil => rfl
  | cons c t ih =>
    unfold setOwn
    rw [if_neg (h c (List.mem_cons_self _ _)), ih (fun c1 hc1 => h c1 (List.mem_cons_of_mem _ hc1))]
    rfl

theorem commitAt_append {V : Type} (s : Nat) (vs : List (MvccEntry V)) (e : MvccEntry V)
    (rest : List (MvccEntry V)) :
    commitAt s vs.length (vs ++ e :: rest) =
      vs ++ MvccEntry.mk Option.none (s + 1) e.value :: rest := by
  induction vs with
  | nil => rfl
  | cons c t ih => simp only [List.cons_append, List.length_cons, commitAt, List.append_eq, ih]

theorem filter_all_not_own {V : Type} (txid : Nat) (vs : List (MvccEntry V))
    (h : ∀ c ∈ vs, ¬ c.owner = some txid) :
    vs.filter (fun e => !decide (e.owner = some txid)) = vs := by
  induction vs with
  | nil => rfl
  | cons c t ih =>
    have hc : ¬ c.owner = some txid := h c (List.mem_cons_self _ _)
    simp only [List.filter_cons, decide_eq_true_eq]
    rw [if_pos (by simp [hc]), ih (fun c1 hc1 => h c1 (List.mem_cons_of_mem _ hc1))]

@[simp] theorem add_to_commit_set_values {L R : Type} [DecidableEq L] [DecidableEq R]
    (tx : Tx) (tid : Nat) (st : RelationState L R) :
    (Relation.add_to_commit_set tx tid st).values = st.values := by
  unfold Relation.add_to_commit_set
  cases lookupA st.commit_sets tx.tx_id <;> rfl

@[simp] theorem add_to_commit_set_l_index {L R : Type} [DecidableEq L] [DecidableEq R]
    (tx : Tx) (tid : Nat) (st : RelationState L R) :
    (Relation.add_to_commit_set tx tid st).l_index = st.l_index := by
  unfold Relation.add_to_commit_set
  cases lookupA st.commit_sets tx.tx_id <;> rfl

@[simp] theorem add_to_commit_set_next_tuple_id {L R : Type} [DecidableEq L] [DecidableEq R]
    (tx : Tx) (tid : Nat) (st : RelationState L R) :
    (Relation.add_to_commit_set tx tid st).next_tuple_id = st.next_tuple_id := by
  unfold Relation.add_to_commit_set
  cases lookupA st.commit_sets tx.tx_id <;> rfl

theorem add_to_commit_set_cs {L R : Type} [DecidableEq L] [DecidableEq R]
    (tx : Tx) (tid : Nat) (st : RelationState L R) :
    (Relation.add_to_commit_set tx tid st).commit_sets =
      match lookupA st.commit_sets tx.tx_id with
      | some c => insertA st.commit_sets tx.tx_id (c ++ [tid])
      | Option.none => insertA st.commit_sets tx.tx_id [tid] := by
  unfold Relation.add_to_commit_set
  cases lookupA st.commit_sets tx.tx_id <;> rfl

theorem add_to_commit_set_fresh {L R : Type} [DecidableEq L] [DecidableEq R]
    (tx : Tx) (tid : Nat) (st : RelationState L R)
    (h : lookupA st.commit_sets tx.tx_id = Option.none) :
    (Relation.add_to_commit_set tx tid st).commit_sets =
      insertA st.commit_sets tx.tx_id [tid] := by
  unfold Relation.add_to_commit_set
  rw [h]

theorem quiescent_owner {L R : Type} [DecidableEq L] [DecidableEq R] (st : RelationState L R)
    (hq : Relation.quiescent st = true) (tid : Nat) (t : MvccTuple (L × R))
    (h : lookupA st.values tid = some t) : ∀ e ∈ t.versions, e.owner = Option.none := by
  unfold Relation.quiescent at hq
  rw [Bool.and_eq_true] at hq
  have h1 := List.all_eq_true.mp hq.1 (tid, t) (lookupA_mem _ _ _ h)
  intro e he
  exact of_decide_eq_true (List.all_eq_true.mp h1 e he)

theorem quiescent_commit_sets {L R : Type} [DecidableEq L] [DecidableEq R]
    (st : RelationState L R) (hq : Relation.quiescent st = true) : st.commit_sets = [] := by
  unfold Relation.quiescent at hq
  rw [Bool.and_eq_true] at hq
  exact List.isEmpty_iff.mp hq.2

theorem any_newer_eq_false {V : Type} (b : Nat) (vs : List (MvccEntry V))
    (h : (vs.any fun c => decide (c.owner = Option.none ∧ b < c.ts)) = false) :
    ∀ c ∈ vs, c.owner = Option.none → c.ts ≤ b := by
  intro c hc hown
  have h2 := List.any_eq_false.mp h c hc
  simp only [decide_eq_true_eq] at h2
  by_contra hlt
  exact h2 ⟨hown, Nat.lt_of_not_le hlt⟩

structure C1Trace (L R : Type) where
  u1 : DbOut
  u2 : DbOut
  c1 : DbOut
  c2 : DbOut
  final : RelationState L R

def c1Run {L R : Type} [DecidableEq L] [DecidableEq R] (st0 : RelationState L R)
    (k : L) (v1 v2 : R) (id1 id2 s : Nat) : C1Trace L R :=
  let p1 := Relation.update_r ⟨id1, s⟩ k v1 st0
  let p2 := Relation.update_r ⟨id2, s⟩ k v2 p1.2
  let p3 := Relation.commit ⟨id1, s⟩ p2.2
  let p4 := Relation.commit ⟨id2, s⟩ p3.2
  ⟨p1.1, p2.1, p3.1, p4.1, p4.2⟩

/-- Claim C1: first-committer-wins on write-write conflict.  For two
transactions T1 and T2 that both begin at the same snapshot timestamp `s`
and both update the same key `k` of a quiescent relation, if T1's commit
succeeds then T2's commit returns `Conflict`, and any transaction begun
after T1's commit (snapshot `≥ s + 1`, the timestamp T1's commit
published) observes T1's value for `k` via `seek_for_l_eq`. -/
theorem commit_conflict_first_committer_wins {L R : Type} [DecidableEq L] [DecidableEq R]
    (st0 : RelationState L R) (k : L) (v1 v2 : R) (id1 id2 s : Nat)
    (hq : Relation.quiescent st0 = true)
    (hid : id1 ≠ id2)
    (h1 : (c1Run st0 k v1 v2 id1 id2 s).u1 = .ok)
    (hc1 : (c1Run st0 k v1 v2 id1 id2 s).c1 = .ok) :
    (c1Run st0 k v1 v2 id1 id2 s).u2 = .ok ∧
    (c1Run st0 k v1 v2 id1 id2 s).c2 = .err .conflict ∧
    ∀ id3 s3, s + 1 ≤ s3 →
      Relation.seek_for_l_eq ⟨id3, s3⟩ k (c1Run st0 k v1 v2 id1 id2 s).final = some v1 := by
  have hcs0 : st0.commit_sets = [] := quiescent_commit_sets st0 hq
  cases hA : lookupA st0.l_index k with
  | none =>
    simp only [c1Run, Relation.update_r, hA] at h1
    cases h1
  | some tid =>
  cases hB : lookupA st0.values tid with
  | none =>
    simp only [c1Run, Relation.update_r, hA, hB] at h1
    cases h1
  | some T =>
  have hOwn : ∀ e ∈ T.versions, e.owner = Option.none := quiescent_owner st0 hq tid T hB
  have hOwn1 : ∀ e ∈ T.versions, ¬ e.owner = some id1 := fun e he => by
    rw [hOwn e he]; exact fun hx => Option.noConfusion hx
  have hOwn2 : ∀ e ∈ T.versions, ¬ e.owner = some id2 := fun e he => by
    rw [hOwn e he]; exact fun hx => Option.noConfusion hx
  have hfo1 : findOwnIdx id1 T.versions = Option.none := findOwnIdx_all_not _ _ hOwn1
  cases hV : visibleAt s T.versions with
  | none =>
    simp only [c1Run, Relation.update_r, hA, hB, MvccTuple.get, hfo1, hV] at h1
    cases h1
  | some a =>
  have has : a.ts ≤ s := (visibleAt_sound s T.versions a hV).2.2
  cases hval : a.value with
  | tombstone =>
    simp only [c1Run, Relation.update_r, hA, hB, MvccTuple.get, hfo1, hV, hval,
      EntryValue.toOption] at h1
    cases h1
  | val w =>
  -- facts about the version lists produced along the run
  have hset1 : T.set id1 a.ts (k, v1) = ⟨T.versions ++ [⟨some id1, a.ts, .val (k, v1)⟩]⟩ := by
    unfold MvccTuple.set
    rw [setOwn_all_not id1 _ _ hOwn1]
  have hOwnApp2 : ∀ c ∈ T.versions ++ [(⟨some id1, a.ts, .val (k, v1)⟩ : MvccEntry (L × R))],
      ¬ c.owner = some id2 := by
    intro c hc
    rcases List.mem_append.mp hc with h | h
    · exact hOwn2 c h
    · simp only [List.mem_singleton] at h
      subst h
      intro hx
      exact hid (Option.some.inj hx)
  have hfo2 : findOwnIdx id2 (T.versions ++ [(⟨some id1, a.ts, .val (k, v1)⟩ : MvccEntry (L × R))]) =
      Option.none := findOwnIdx_all_not _ _ hOwnApp2
  have hV2 : visibleAt s (T.versions ++ [(⟨some id1, a.ts, .val (k, v1)⟩ : MvccEntry (L × R))]) = some a := by
    rw [visibleAt_append_uncommitted s T.versions _ (fun hx => Option.noConfusion hx)]
    exact hV
  have hset2 : MvccTuple.set ⟨T.versions ++ [⟨some id1, a.ts, .val (k, v1)⟩]⟩ id2 a.ts (k, v2) =
      ⟨T.versions ++ [⟨some id1, a.ts, .val (k, v1)⟩, ⟨some id2, a.ts, .val (k, v2)⟩]⟩ := by
    unfold MvccTuple.set
    rw [setOwn_all_not id2 _ _ hOwnApp2]
    simp
  have hfoT1 : findOwnIdx id1 (T.versions ++ [⟨some id1, a.ts, .val (k, v1)⟩, ⟨some id2, a.ts, .val (k, v2)⟩]) =
      some (T.versions.length, ⟨some id1, a.ts, .val (k, v1)⟩) :=
    findOwnIdx_append_own id1 T.versions _ _ hOwn1 rfl
  -- stage 1 : T1's update_r
  have hp1 : Relation.update_r (Tx.mk id1 s) k v1 st0 =
      (.ok, Relation.withRIndex
        (Relation.add_to_commit_set ⟨id1, s⟩ tid
          { st0 with values := insertA st0.values tid ⟨T.versions ++ [⟨some id1, a.ts, .val (k, v1)⟩]⟩ })
        (fun ri => Relation.rIndexAdd (Relation.rIndexEnsureRemove ri w.2 tid) v1 tid)) := by
    simp only [Relation.update_r, hA, hB, MvccTuple.get, hfo1, hV, hval, EntryValue.toOption,
      hset1]
  have hv1 : (Relation.update_r (Tx.mk id1 s) k v1 st0).2.values = insertA st0.values tid ⟨T.versions ++ [⟨some id1, a.ts, .val (k, v1)⟩]⟩ := by
    rw [hp1]; simp
  have hl1 : (Relation.update_r (Tx.mk id1 s) k v1 st0).2.l_index = st0.l_index := by
    rw [hp1]; simp
  have hcs1 : (Relation.update_r (Tx.mk id1 s) k v1 st0).2.commit_sets = [(id1, [tid])] := by
    rw [hp1]
    simp only [Relation.withRIndex_commit_sets, add_to_commit_set_cs]
    simp [hcs0, lookupA, insertA]
  -- stage 2 : T2's update_r
  have hu2 : (Relation.update_r (Tx.mk id2 s) k v2 (Relation.update_r (Tx.mk id1 s) k v1 st0).2).1 = .ok := by
    rw [Relation.update_r]
    simp only [hl1, hA, hv1, lookupA_insertA_self, MvccTuple.get, hfo2, hV2, hval,
      EntryValue.toOption, hset2]
  have hv2 : (Relation.update_r (Tx.mk id2 s) k v2 (Relation.update_r (Tx.mk id1 s) k v1 st0).2).2.values =
      insertA (Relation.update_r (Tx.mk id1 s) k v1 st0).2.values tid ⟨T.versions ++ [⟨some id1, a.ts, .val (k, v1)⟩, ⟨some id2, a.ts, .val (k, v2)⟩]⟩ := by
    rw [Relation.update_r]
    simp only [hl1, hA, hv1, lookupA_insertA_self, MvccTuple.get, hfo2, hV2, hval,
      EntryValue.toOption, hset2]
    simp [hv1]
  have hl2 : (Relation.update_r (Tx.mk id2 s) k v2 (Relation.update_r (Tx.mk id1 s) k v1 st0).2).2.l_index = st0.l_index := by
    rw [Relation.update_r]
    simp only [hl1, hA, hv1, lookupA_insertA_self, MvccTuple.get, hfo2, hV2, hval,
      EntryValue.toOption, hset2]
    simp [hl1]
  have hcs2 : (Relation.update_r (Tx.mk id2 s) k v2 (Relation.update_r (Tx.mk id1 s) k v1 st0).2).2.commit_sets = [(id1, [tid]), (id2, [tid])] := by
    rw [Relation.update_r]
    simp only [hl1, hA, hv1, lookupA_insertA_self, MvccTuple.get, hfo2, hV2, hval,
      EntryValue.toOption, hset2]
    simp only [Relation.withRIndex_commit_sets, add_to_commit_set_cs]
    simp [hcs1, lookupA, insertA, hid, Ne.symm hid]
  -- stage 3 : T1's commit
  have hT2full : lookupA (Relation.update_r (Tx.mk id2 s) k v2 (Relation.update_r (Tx.mk id1 s) k v1 st0).2).2.values tid = some ⟨T.versions ++ [⟨some id1, a.ts, .val (k, v1)⟩, ⟨some id2, a.ts, .val (k, v2)⟩]⟩ := by
    rw [hv2]; exact lookupA_insertA_self _ _ _
  have hlcs1 : lookupA (Relation.update_r (Tx.mk id2 s) k v2 (Relation.update_r (Tx.mk id1 s) k v1 st0).2).2.commit_sets id1 = some [tid] := by
    rw [hcs2]; simp [lookupA]
  simp only [c1Run] at hc1 ⊢
  rw [Relation.commit, hlcs1] at hc1
  simp only [Relation.checkCommitSet, hT2full, MvccTuple.can_commit, hfoT1] at hc1
  cases hAny : (T.versions ++ [(⟨some id1, a.ts, .val (k, v1)⟩ : MvccEntry (L × R)), ⟨some id2, a.ts, .val (k, v2)⟩]).any
      (fun c => decide (c.owner = Option.none ∧ a.ts < c.ts)) with
  | true =>
    exfalso
    rw [hAny] at hc1
    simp only [if_true] at hc1
    cases hR : (Relation.rollback (Tx.mk id1 s) (Relation.update_r (Tx.mk id2 s) k v2 (Relation.update_r (Tx.mk id1 s) k v1 st0).2).2).1 <;>
      rw [hR] at hc1 <;> simp at hc1
  | false =>
  rw [hAny] at hc1
  simp only [Bool.false_eq_true, if_false] at hc1
  -- hc1 now carries the conflict-free check; finish evaluating T1's commit
  have hmax : ∀ c ∈ T.versions, c.owner = Option.none → c.ts ≤ a.ts := by
    intro c hc hco
    exact any_newer_eq_false a.ts _ hAny c (List.mem_append_left _ hc) hco
  have hCC : MvccTuple.can_commit (⟨T.versions ++ [⟨some id1, a.ts, .val (k, v1)⟩, ⟨some id2, a.ts, .val (k, v2)⟩]⟩ : MvccTuple (L × R)) id1 =
      .canCommit T.versions.length := by
    simp only [MvccTuple.can_commit, hfoT1, hAny, Bool.false_eq_true, if_false]
  have hCHK : Relation.checkCommitSet id1 (Relation.update_r (Tx.mk id2 s) k v2 (Relation.update_r (Tx.mk id1 s) k v1 st0).2).2.values [tid] =
      some (true, [(tid, T.versions.length)]) := by
    simp only [Relation.checkCommitSet, hT2full, hCC]
  have hDC : MvccTuple.do_commit (⟨T.versions ++ [⟨some id1, a.ts, .val (k, v1)⟩, ⟨some id2, a.ts, .val (k, v2)⟩]⟩ : MvccTuple (L × R)) s T.versions.length =
      ⟨T.versions ++ [⟨Option.none, s + 1, .val (k, v1)⟩, ⟨some id2, a.ts, .val (k, v2)⟩]⟩ := by
    unfold MvccTuple.do_commit
    have hca := commitAt_append s T.versions (⟨some id1, a.ts, .val (k, v1)⟩ : MvccEntry (L × R)) [⟨some id2, a.ts, .val (k, v2)⟩]
    simp only [hca]
  have hAPP : Relation.applyCommits s (Relation.update_r (Tx.mk id2 s) k v2 (Relation.update_r (Tx.mk id1 s) k v1 st0).2).2.values [(tid, T.versions.length)] =
      some (insertA (Relation.update_r (Tx.mk id2 s) k v2 (Relation.update_r (Tx.mk id1 s) k v1 st0).2).2.values tid ⟨T.versions ++ [⟨Option.none, s + 1, .val (k, v1)⟩, ⟨some id2, a.ts, .val (k, v2)⟩]⟩) := by
    simp only [Relation.applyCommits, hT2full, hDC]
  have hp3 : Relation.commit (Tx.mk id1 s) (Relation.update_r (Tx.mk id2 s) k v2 (Relation.update_r (Tx.mk id1 s) k v1 st0).2).2 =
      (.ok, { (Relation.update_r (Tx.mk id2 s) k v2 (Relation.update_r (Tx.mk id1 s) k v1 st0).2).2 with values := insertA (Relation.update_r (Tx.mk id2 s) k v2 (Relation.update_r (Tx.mk id1 s) k v1 st0).2).2.values tid ⟨T.versions ++ [⟨Option.none, s + 1, .val (k, v1)⟩, ⟨some id2, a.ts, .val (k, v2)⟩]⟩ }) := by
    rw [Relation.commit, hlcs1]
    simp only [Relation.checkCommitSet, hT2full, MvccTuple.can_commit, hfoT1, hAny,
      Bool.false_eq_true, if_false, if_true, hAPP]
  have hv3 : (Relation.commit (Tx.mk id1 s) (Relation.update_r (Tx.mk id2 s) k v2 (Relation.update_r (Tx.mk id1 s) k v1 st0).2).2).2.values = insertA (Relation.update_r (Tx.mk id2 s) k v2 (Relation.update_r (Tx.mk id1 s) k v1 st0).2).2.values tid ⟨T.versions ++ [⟨Option.none, s + 1, .val (k, v1)⟩, ⟨some id2, a.ts, .val (k, v2)⟩]⟩ := by
    rw [hp3]
  have hl3 : (Relation.commit (Tx.mk id1 s) (Relation.update_r (Tx.mk id2 s) k v2 (Relation.update_r (Tx.mk id1 s) k v1 st0).2).2).2.l_index = st0.l_index := by
    rw [hp3]; exact hl2
  have hcs3 : (Relation.commit (Tx.mk id1 s) (Relation.update_r (Tx.mk id2 s) k v2 (Relation.update_r (Tx.mk id1 s) k v1 st0).2).2).2.commit_sets = [(id1, [tid]), (id2, [tid])] := by
    rw [hp3]; exact hcs2
  -- stage 4 : T2's commit conflicts and rolls back
  have hT3 : lookupA (Relation.commit (Tx.mk id1 s) (Relation.update_r (Tx.mk id2 s) k v2 (Relation.update_r (Tx.mk id1 s) k v1 st0).2).2).2.values tid = some ⟨T.versions ++ [⟨Option.none, s + 1, .val (k, v1)⟩, ⟨some id2, a.ts, .val (k, v2)⟩]⟩ := by
    rw [hv3]; exact lookupA_insertA_self _ _ _
  have hlcs2 : lookupA (Relation.commit (Tx.mk id1 s) (Relation.update_r (Tx.mk id2 s) k v2 (Relation.update_r (Tx.mk id1 s) k v1 st0).2).2).2.commit_sets id2 = some [tid] := by
    rw [hcs3]; simp [lookupA, hid]
  have hpre4 : ∀ c ∈ T.versions ++ [(⟨Option.none, s + 1, .val (k, v1)⟩ : MvccEntry (L × R))], ¬ c.owner = some id2 := by
    intro c hc
    rcases List.mem_append.mp hc with h | h
    · exact hOwn2 c h
    · simp only [List.mem_singleton] at h
      subst h
      exact fun hx => Option.noConfusion hx
  have hfoT2 : findOwnIdx id2 (T.versions ++ [⟨Option.none, s + 1, .val (k, v1)⟩, ⟨some id2, a.ts, .val (k, v2)⟩]) =
      some (T.versions.length + 1, ⟨some id2, a.ts, .val (k, v2)⟩) := by
    have hsh : T.versions ++ [(⟨Option.none, s + 1, .val (k, v1)⟩ : MvccEntry (L × R)), ⟨some id2, a.ts, .val (k, v2)⟩] =
        (T.versions ++ [⟨Option.none, s + 1, .val (k, v1)⟩]) ++ [⟨some id2, a.ts, .val (k, v2)⟩] := by simp
    rw [hsh]
    have := findOwnIdx_append_own id2 (T.versions ++ [⟨Option.none, s + 1, .val (k, v1)⟩]) (⟨some id2, a.ts, .val (k, v2)⟩ : MvccEntry (L × R)) [] hpre4 rfl
    simpa using this
  have hAny2 : ((T.versions ++ [(⟨Option.none, s + 1, .val (k, v1)⟩ : MvccEntry (L × R)), ⟨some id2, a.ts, .val (k, v2)⟩]).any
      (fun c => decide (c.owner = Option.none ∧ a.ts < c.ts))) = true := by
    apply List.any_eq_true.mpr
    refine ⟨⟨Option.none, s + 1, .val (k, v1)⟩, by simp, ?_⟩
    simp only [decide_eq_true_eq]
    exact ⟨by simp, Nat.lt_succ_of_le has⟩
  have hCC2 : MvccTuple.can_commit (⟨T.versions ++ [⟨Option.none, s + 1, .val (k, v1)⟩, ⟨some id2, a.ts, .val (k, v2)⟩]⟩ : MvccTuple (L × R)) id2 =
      .conflict := by
    simp only [MvccTuple.can_commit, hfoT2, hAny2, if_true]
  have hCHK2 : Relation.checkCommitSet id2 (Relation.commit (Tx.mk id1 s) (Relation.update_r (Tx.mk id2 s) k v2 (Relation.update_r (Tx.mk id1 s) k v1 st0).2).2).2.values [tid] = some (false, []) := by
    simp only [Relation.checkCommitSet, hT3, hCC2]
  have hrbT : MvccTuple.rollback (⟨T.versions ++ [⟨Option.none, s + 1, .val (k, v1)⟩, ⟨some id2, a.ts, .val (k, v2)⟩]⟩ : MvccTuple (L × R)) id2 =
      ⟨T.versions ++ [⟨Option.none, s + 1, .val (k, v1)⟩]⟩ := by
    unfold MvccTuple.rollback
    have hsh : T.versions ++ [(⟨Option.none, s + 1, .val (k, v1)⟩ : MvccEntry (L × R)), ⟨some id2, a.ts, .val (k, v2)⟩] =
        (T.versions ++ [⟨Option.none, s + 1, .val (k, v1)⟩]) ++ [⟨some id2, a.ts, .val (k, v2)⟩] := by simp
    simp only [hsh, List.filter_append, filter_all_not_own id2 _ hpre4]
    simp
  have hRBT : Relation.rollbackTuples id2 (Relation.commit (Tx.mk id1 s) (Relation.update_r (Tx.mk id2 s) k v2 (Relation.update_r (Tx.mk id1 s) k v1 st0).2).2).2.values [tid] =
      some (insertA (Relation.commit (Tx.mk id1 s) (Relation.update_r (Tx.mk id2 s) k v2 (Relation.update_r (Tx.mk id1 s) k v1 st0).2).2).2.values tid ⟨T.versions ++ [⟨Option.none, s + 1, .val (k, v1)⟩]⟩) := by
    simp only [Relation.rollbackTuples, hT3, hrbT]
  have hrb : Relation.rollback (Tx.mk id2 s) (Relation.commit (Tx.mk id1 s) (Relation.update_r (Tx.mk id2 s) k v2 (Relation.update_r (Tx.mk id1 s) k v1 st0).2).2).2 =
      (.ok, { (Relation.commit (Tx.mk id1 s) (Relation.update_r (Tx.mk id2 s) k v2 (Relation.update_r (Tx.mk id1 s) k v1 st0).2).2).2 with
        values := insertA (Relation.commit (Tx.mk id1 s) (Relation.update_r (Tx.mk id2 s) k v2 (Relation.update_r (Tx.mk id1 s) k v1 st0).2).2).2.values tid ⟨T.versions ++ [⟨Option.none, s + 1, .val (k, v1)⟩]⟩,
        commit_sets := removeA (Relation.commit (Tx.mk id1 s) (Relation.update_r (Tx.mk id2 s) k v2 (Relation.update_r (Tx.mk id1 s) k v1 st0).2).2).2.commit_sets id2 }) := by
    rw [Relation.rollback, hlcs2]
    simp only [hRBT]
  have hp4 : Relation.commit (Tx.mk id2 s) (Relation.commit (Tx.mk id1 s) (Relation.update_r (Tx.mk id2 s) k v2 (Relation.update_r (Tx.mk id1 s) k v1 st0).2).2).2 =
      (.err .conflict, { (Relation.commit (Tx.mk id1 s) (Relation.update_r (Tx.mk id2 s) k v2 (Relation.update_r (Tx.mk id1 s) k v1 st0).2).2).2 with
        values := insertA (Relation.commit (Tx.mk id1 s) (Relation.update_r (Tx.mk id2 s) k v2 (Relation.update_r (Tx.mk id1 s) k v1 st0).2).2).2.values tid ⟨T.versions ++ [⟨Option.none, s + 1, .val (k, v1)⟩]⟩,
        commit_sets := removeA (Relation.commit (Tx.mk id1 s) (Relation.update_r (Tx.mk id2 s) k v2 (Relation.update_r (Tx.mk id1 s) k v1 st0).2).2).2.commit_sets id2 }) := by
    rw [Relation.commit, hlcs2]
    simp only [hCHK2, Bool.false_eq_true, if_false, hrb]
  refine ⟨hu2, ?_, ?_⟩
  · rw [hp4]
  · intro id3 s3 hs3
    rw [hp4]
    have hfo4 : findOwnIdx id3 (T.versions ++ [(⟨Option.none, s + 1, .val (k, v1)⟩ : MvccEntry (L × R))]) = Option.none := by
      apply findOwnIdx_all_not
      intro c hc
      rcases List.mem_append.mp hc with h | h
      · rw [hOwn c h]; exact fun hx => Option.noConfusion hx
      · simp only [List.mem_singleton] at h
        subst h
        exact fun hx => Option.noConfusion hx
    have hV4 : visibleAt s3 (T.versions ++ [(⟨Option.none, s + 1, .val (k, v1)⟩ : MvccEntry (L × R))]) = some ⟨Option.none, s + 1, .val (k, v1)⟩ :=
      visibleAt_append_wins s3 a.ts T.versions _ hmax rfl (Nat.lt_succ_of_le has) hs3
    rw [Relation.seek_for_l_eq]
    simp only [hl3, hA, lookupA_insertA_self, MvccTuple.get, hfo4, hV4, EntryValue.toOption]
    rfl

def c1Demo : RelationState Nat Nat :=
  ⟨1, [(0, ⟨[⟨Option.none, 1, .val (5, 10)⟩]⟩)], [(5, 0)], Option.none, []⟩

theorem commit_conflict_first_committer_wins_witness :
    (c1Run c1Demo 5 11 12 101 102 2).u2 = .ok ∧
    (c1Run c1Demo 5 11 12 101 102 2).c2 = .err .conflict ∧
    Relation.seek_for_l_eq ⟨7, 3⟩ 5 (c1Run c1Demo 5 11 12 101 102 2).final = some 11 := by
  have h := commit_conflict_first_committer_wins c1Demo 5 11 12 101 102 2 (by decide) (by decide) (by decide) (by decide)
  exact ⟨h.1, h.2.1, h.2.2 7 3 (by decide)⟩

/-- After a committed `insert(d, c)` the tuple for `d` reads back as `c`;
after a later committed `remove(d)` it reads back as absent. -/
theorem c2_tail {L R : Type} [DecidableEq L] [DecidableEq R]
    (st1 : RelationState L R) (d : L) (c : R) (tid : Nat)
    (VS : List (MvccEntry (L × R))) (s idr sr id2 s2 idr2 sr2 : Nat)
    (hA1 : lookupA st1.l_index d = some tid)
    (hT1 : lookupA st1.values tid = some ⟨VS ++ [⟨Option.none, s + 1, .val (d, c)⟩]⟩)
    (hVSc : ∀ e ∈ VS, e.owner = Option.none)
    (hVSb : ∀ e ∈ VS, e.ts ≤ s)
    (hcsid2 : lookupA st1.commit_sets id2 = Option.none)
    (hsr : s + 1 ≤ sr) (hs2 : s + 1 ≤ s2) (hsr2 : s2 + 1 ≤ sr2) :
    Relation.seek_for_l_eq ⟨idr, sr⟩ d st1 = some c ∧
    (Relation.remove_for_l ⟨id2, s2⟩ d st1).1 = .ok ∧
    (Relation.commit ⟨id2, s2⟩ (Relation.remove_for_l ⟨id2, s2⟩ d st1).2).1 = .ok ∧
    Relation.seek_for_l_eq ⟨idr2, sr2⟩ d
      (Relation.commit ⟨id2, s2⟩ (Relation.remove_for_l ⟨id2, s2⟩ d st1).2).2 = none := by
  -- the committed version list and its facts
  have hcomm : ∀ e ∈ VS ++ [(⟨Option.none, s + 1, .val (d, c)⟩ : MvccEntry (L × R))],
      e.owner = Option.none := by
    intro e he
    rcases List.mem_append.mp he with h | h
    · exact hVSc e h
    · simp only [List.mem_singleton] at h
      subst h
      rfl
  have hnotown : ∀ (j : Nat),
      ∀ e ∈ VS ++ [(⟨Option.none, s + 1, .val (d, c)⟩ : MvccEntry (L × R))],
      ¬ e.owner = some j := by
    intro j e he
    rw [hcomm e he]
    exact fun hx => Option.noConfusion hx
  have hwin : ∀ (s3 : Nat), s + 1 ≤ s3 →
      visibleAt s3 (VS ++ [(⟨Option.none, s + 1, .val (d, c)⟩ : MvccEntry (L × R))]) =
        some ⟨Option.none, s + 1, .val (d, c)⟩ := by
    intro s3 hs3
    exact visibleAt_append_wins s3 s VS _ (fun e he _ => hVSb e he) rfl (Nat.lt_succ_self s) hs3
  -- part 1 : the read after the committed insert
  have hseek1 : Relation.seek_for_l_eq (Tx.mk idr sr) d st1 = some c := by
    rw [Relation.seek_for_l_eq]
    simp only [hA1, hT1, MvccTuple.get, findOwnIdx_all_not idr _ (hnotown idr), hwin sr hsr,
      EntryValue.toOption]
    rfl
  -- part 2 : the remove
  have hp3 : Relation.remove_for_l (Tx.mk id2 s2) d st1 =
      (.ok, Relation.withRIndex
        (Relation.add_to_commit_set ⟨id2, s2⟩ tid
          { st1 with
            values := insertA st1.values tid
              ⟨VS ++ [⟨Option.none, s + 1, .val (d, c)⟩, ⟨some id2, s + 1, .tombstone⟩]⟩ })
        (fun ri => Relation.rIndexModifyRemove ri c tid)) := by
    rw [Relation.remove_for_l]
    simp only [hA1, hT1, MvccTuple.get, findOwnIdx_all_not id2 _ (hnotown id2), hwin s2 hs2,
      EntryValue.toOption, MvccTuple.delete, setOwn_all_not id2 _ _ (hnotown id2)]
    simp
  have hr2 : (Relation.remove_for_l (Tx.mk id2 s2) d st1).1 = .ok := by rw [hp3]
  have hv3 : (Relation.remove_for_l (Tx.mk id2 s2) d st1).2.values =
      insertA st1.values tid
        ⟨VS ++ [⟨Option.none, s + 1, .val (d, c)⟩, ⟨some id2, s + 1, .tombstone⟩]⟩ := by
    rw [hp3]; simp
  have hl3 : (Relation.remove_for_l (Tx.mk id2 s2) d st1).2.l_index = st1.l_index := by
    rw [hp3]; simp
  have hcs3 : lookupA (Relation.remove_for_l (Tx.mk id2 s2) d st1).2.commit_sets id2 =
      some [tid] := by
    rw [hp3]
    simp only [Relation.withRIndex_commit_sets, add_to_commit_set_cs]
    simp only [RelationState.commit_sets, hcsid2]
    exact lookupA_insertA_self _ _ _
  -- part 3 : the second commit
  have hT3 : lookupA (Relation.remove_for_l (Tx.mk id2 s2) d st1).2.values tid =
      some ⟨VS ++ [⟨Option.none, s + 1, .val (d, c)⟩, ⟨some id2, s + 1, .tombstone⟩]⟩ := by
    rw [hv3]; exact lookupA_insertA_self _ _ _
  have hfoT2 : findOwnIdx id2
      (VS ++ [(⟨Option.none, s + 1, .val (d, c)⟩ : MvccEntry (L × R)), ⟨some id2, s + 1, .tombstone⟩]) =
      some (VS.length + 1, ⟨some id2, s + 1, .tombstone⟩) := by
    have hsh : VS ++ [(⟨Option.none, s + 1, .val (d, c)⟩ : MvccEntry (L × R)), ⟨some id2, s + 1, .tombstone⟩] =
        (VS ++ [⟨Option.none, s + 1, .val (d, c)⟩]) ++ [⟨some id2, s + 1, .tombstone⟩] := by simp
    rw [hsh]
    have := findOwnIdx_append_own id2 (VS ++ [⟨Option.none, s + 1, .val (d, c)⟩])
      (⟨some id2, s + 1, .tombstone⟩ : MvccEntry (L × R)) [] (hnotown id2) rfl
    simpa using this
  have hAny2 : ((VS ++ [(⟨Option.none, s + 1, .val (d, c)⟩ : MvccEntry (L × R)),
      ⟨some id2, s + 1, .tombstone⟩]).any
      (fun e => decide (e.owner = Option.none ∧ s + 1 < e.ts))) = false := by
    apply List.any_eq_false.mpr
    intro e he
    simp only [decide_eq_true_eq]
    rintro ⟨ho, hts⟩
    rcases List.mem_append.mp he with h | h
    · exact absurd hts (by have := hVSb e h; omega)
    · rcases List.mem_cons.mp h with h | h
      · subst h
        exact absurd hts (by simp)
      · simp only [List.mem_singleton] at h
        subst h
        exact Option.noConfusion ho
  have hCC2 : MvccTuple.can_commit
      (⟨VS ++ [⟨Option.none, s + 1, .val (d, c)⟩, ⟨some id2, s + 1, .tombstone⟩]⟩ :
        MvccTuple (L × R)) id2 = .canCommit (VS.length + 1) := by
    simp only [MvccTuple.can_commit, hfoT2, hAny2, Bool.false_eq_true, if_false]
  have hDC2 : MvccTuple.do_commit
      (⟨VS ++ [⟨Option.none, s + 1, .val (d, c)⟩, ⟨some id2, s + 1, .tombstone⟩]⟩ :
        MvccTuple (L × R)) s2 (VS.length + 1) =
      ⟨VS ++ [⟨Option.none, s + 1, .val (d, c)⟩, ⟨Option.none, s2 + 1, .tombstone⟩]⟩ := by
    unfold MvccTuple.do_commit
    have hsh : VS ++ [(⟨Option.none, s + 1, .val (d, c)⟩ : MvccEntry (L × R)), ⟨some id2, s + 1, .tombstone⟩] =
        (VS ++ [⟨Option.none, s + 1, .val (d, c)⟩]) ++
          (⟨some id2, s + 1, .tombstone⟩ : MvccEntry (L × R)) :: [] := by simp
    rw [hsh]
    have hlen : VS.length + 1 = (VS ++ [(⟨Option.none, s + 1, .val (d, c)⟩ : MvccEntry (L × R))]).length := by
      simp
    rw [hlen, commitAt_append]
    simp
  have hp4 : Relation.commit (Tx.mk id2 s2) (Relation.remove_for_l (Tx.mk id2 s2) d st1).2 =
      (.ok, { (Relation.remove_for_l (Tx.mk id2 s2) d st1).2 with
        values := insertA (Relation.remove_for_l (Tx.mk id2 s2) d st1).2.values tid
          ⟨VS ++ [⟨Option.none, s + 1, .val (d, c)⟩, ⟨Option.none, s2 + 1, .tombstone⟩]⟩ }) := by
    rw [Relation.commit, hcs3]
    simp only [Relation.checkCommitSet, hT3, hCC2, Relation.applyCommits, hDC2, if_true]
  refine ⟨hseek1, hr2, ?_, ?_⟩
  · rw [hp4]
  · rw [hp4]
    rw [Relation.seek_for_l_eq]
    have hfo4 : findOwnIdx idr2
        (VS ++ [(⟨Option.none, s + 1, .val (d, c)⟩ : MvccEntry (L × R)), ⟨Option.none, s2 + 1, .tombstone⟩]) =
        Option.none := by
      apply findOwnIdx_all_not
      intro e he
      rcases List.mem_append.mp he with h | h
      · rw [hVSc e h]; exact fun hx => Option.noConfusion hx
      · rcases List.mem_cons.mp h with h | h
        · subst h; exact fun hx => Option.noConfusion hx
        · simp only [List.mem_singleton] at h
          subst h; exact fun hx => Option.noConfusion hx
    have hV4 : visibleAt sr2
        (VS ++ [(⟨Option.none, s + 1, .val (d, c)⟩ : MvccEntry (L × R)), ⟨Option.none, s2 + 1, .tombstone⟩]) =
        some ⟨Option.none, s2 + 1, .tombstone⟩ := by
      have hsh : VS ++ [(⟨Option.none, s + 1, .val (d, c)⟩ : MvccEntry (L × R)), ⟨Option.none, s2 + 1, .tombstone⟩] =
          (VS ++ [⟨Option.none, s + 1, .val (d, c)⟩]) ++ [⟨Option.none, s2 + 1, .tombstone⟩] := by
        simp
      rw [hsh]
      apply visibleAt_append_wins sr2 (s + 1) _ _ ?_ rfl (show s + 1 < s2 + 1 by omega) hsr2
      intro e he _
      rcases List.mem_append.mp he with h | h
      · have := hVSb e h; omega
      · simp only [List.mem_singleton] at h
        subst h; rfl
    simp only [hl3, hA1, lookupA_insertA_self, MvccTuple.get, hfo4, hV4, EntryValue.toOption]
    rfl

theorem get_fst_le {V : Type} (t : MvccTuple V) (txid s : Nat)
    (hfo : findOwnIdx txid t.versions = Option.none) : (t.get txid s).1 ≤ s := by
  unfold MvccTuple.get
  rw [hfo]
  cases hv : visibleAt s t.versions with
  | none => exact Nat.zero_le s
  | some e => exact (visibleAt_sound s t.versions e hv).2.2

structure C2Trace (L R : Type) where
  i1 : DbOut
  c1 : DbOut
  seek1 : Option R
  r2 : DbOut
  c2 : DbOut
  seek2 : Option R

def c2Run {L R : Type} [DecidableEq L] [DecidableEq R] (st0 : RelationState L R)
    (d : L) (c : R) (id1 s idr sr id2 s2 idr2 sr2 : Nat) : C2Trace L R :=
  let p1 := Relation.insert ⟨id1, s⟩ d c st0
  let p2 := Relation.commit ⟨id1, s⟩ p1.2
  let q1 := Relation.seek_for_l_eq ⟨idr, sr⟩ d p2.2
  let p3 := Relation.remove_for_l ⟨id2, s2⟩ d p2.2
  let p4 := Relation.commit ⟨id2, s2⟩ p3.2
  let q2 := Relation.seek_for_l_eq ⟨idr2, sr2⟩ d p4.2
  ⟨p1.1, p2.1, q1, p3.1, p4.1, q2⟩

/-- Claim C2: round-trip through commit.  For every domain `d` and
codomain `c`, after `insert(d, c)` in a transaction that commits
successfully, `seek_for_l_eq d` in a subsequently started transaction
returns codomain `c`; and after a later transaction performs
`remove_for_l d` and commits, `seek_for_l_eq d` in a yet later
transaction returns `none` (NotFound). -/
theorem insert_commit_roundtrip {L R : Type} [DecidableEq L] [DecidableEq R]
    (st0 : RelationState L R) (d : L) (c : R) (id1 s idr sr id2 s2 idr2 sr2 : Nat)
    (hq : Relation.quiescent st0 = true)
    (hid : id2 ≠ id1)
    (hi : (c2Run st0 d c id1 s idr sr id2 s2 idr2 sr2).i1 = .ok)
    (hc1 : (c2Run st0 d c id1 s idr sr id2 s2 idr2 sr2).c1 = .ok)
    (hsr : s + 1 ≤ sr) (hs2 : s + 1 ≤ s2) (hsr2 : s2 + 1 ≤ sr2) :
    (c2Run st0 d c id1 s idr sr id2 s2 idr2 sr2).seek1 = some c ∧
    (c2Run st0 d c id1 s idr sr id2 s2 idr2 sr2).r2 = .ok ∧
    (c2Run st0 d c id1 s idr sr id2 s2 idr2 sr2).c2 = .ok ∧
    (c2Run st0 d c id1 s idr sr id2 s2 idr2 sr2).seek2 = none := by
  have hcs0 : st0.commit_sets = [] := quiescent_commit_sets st0 hq
  simp only [c2Run] at hi hc1 ⊢
  cases hA : lookupA st0.l_index d with
  | some tid =>
    -- the domain key has an existing (possibly dead) tuple
    cases hB : lookupA st0.values tid with
    | none =>
      rw [Relation.insert] at hi
      simp only [hA, hB] at hi
      cases hi
    | some T =>
    have hOwn : ∀ e ∈ T.versions, e.owner = Option.none := quiescent_owner st0 hq tid T hB
    have hOwn1 : ∀ e ∈ T.versions, ¬ e.owner = some id1 := fun e he => by
      rw [hOwn e he]; exact fun hx => Option.noConfusion hx
    have hfo1 : findOwnIdx id1 T.versions = Option.none := findOwnIdx_all_not _ _ hOwn1
    have hbs : (T.get id1 s).1 ≤ s := get_fst_le T id1 s hfo1
    cases hg : (T.get id1 s).2 with
    | some w =>
      rw [Relation.insert] at hi
      simp only [hA, hB, hg] at hi
      cases hi
    | none =>
    have hset1 : T.set id1 (T.get id1 s).1 (d, c) =
        ⟨T.versions ++ [⟨some id1, (T.get id1 s).1, .val (d, c)⟩]⟩ := by
      unfold MvccTuple.set
      rw [setOwn_all_not id1 _ _ hOwn1]
    have hp1 : Relation.insert (Tx.mk id1 s) d c st0 =
        (.ok, Relation.add_to_commit_set ⟨id1, s⟩ tid
          (Relation.withRIndex
            { st0 with
              values := insertA st0.values tid
                ⟨T.versions ++ [⟨some id1, (T.get id1 s).1, .val (d, c)⟩]⟩ }
            (fun ri => Relation.rIndexAdd ri c tid))) := by
      rw [Relation.insert]
      simp only [hA, hB, hg, hset1]
    have hv1 : (Relation.insert (Tx.mk id1 s) d c st0).2.values =
        insertA st0.values tid ⟨T.versions ++ [⟨some id1, (T.get id1 s).1, .val (d, c)⟩]⟩ := by
      rw [hp1]; simp
    have hl1 : (Relation.insert (Tx.mk id1 s) d c st0).2.l_index = st0.l_index := by
      rw [hp1]; simp
    have hcs1 : (Relation.insert (Tx.mk id1 s) d c st0).2.commit_sets = [(id1, [tid])] := by
      rw [hp1]
      simp only [Relation.withRIndex_commit_sets, add_to_commit_set_cs]
      simp [hcs0, lookupA, insertA]
    have hT1 : lookupA (Relation.insert (Tx.mk id1 s) d c st0).2.values tid =
        some ⟨T.versions ++ [⟨some id1, (T.get id1 s).1, .val (d, c)⟩]⟩ := by
      rw [hv1]; exact lookupA_insertA_self _ _ _
    have hlcs1 : lookupA (Relation.insert (Tx.mk id1 s) d c st0).2.commit_sets id1 =
        some [tid] := by
      rw [hcs1]; simp [lookupA]
    have hfoT1 : findOwnIdx id1
        (T.versions ++ [⟨some id1, (T.get id1 s).1, .val (d, c)⟩]) =
        some (T.versions.length, ⟨some id1, (T.get id1 s).1, .val (d, c)⟩) :=
      findOwnIdx_append_own id1 T.versions _ _ hOwn1 rfl
    rw [Relation.commit, hlcs1] at hc1
    simp only [Relation.checkCommitSet, hT1, MvccTuple.can_commit, hfoT1] at hc1
    cases hAny : (T.versions ++ [(⟨some id1, (T.get id1 s).1, .val (d, c)⟩ : MvccEntry (L × R))]).any
        (fun e => decide (e.owner = Option.none ∧ (T.get id1 s).1 < e.ts)) with
    | true =>
      exfalso
      rw [hAny] at hc1
      simp only [if_true] at hc1
      cases hR : (Relation.rollback (Tx.mk id1 s) (Relation.insert (Tx.mk id1 s) d c st0).2).1 <;>
        rw [hR] at hc1 <;> simp at hc1
    | false =>
    have hmax : ∀ e ∈ T.versions, e.ts ≤ (T.get id1 s).1 := by
      intro e he
      exact any_newer_eq_false _ _ hAny e (List.mem_append_left _ he) (hOwn e he)
    have hDC : MvccTuple.do_commit
        (⟨T.versions ++ [⟨some id1, (T.get id1 s).1, .val (d, c)⟩]⟩ : MvccTuple (L × R))
        s T.versions.length =
        ⟨T.versions ++ [⟨Option.none, s + 1, .val (d, c)⟩]⟩ := by
      unfold MvccTuple.do_commit
      have hca := commitAt_append s T.versions
        (⟨some id1, (T.get id1 s).1, .val (d, c)⟩ : MvccEntry (L × R)) []
      simp only [hca]
    have hp2 : Relation.commit (Tx.mk id1 s) (Relation.insert (Tx.mk id1 s) d c st0).2 =
        (.ok, { (Relation.insert (Tx.mk id1 s) d c st0).2 with
          values := insertA (Relation.insert (Tx.mk id1 s) d c st0).2.values tid
            ⟨T.versions ++ [⟨Option.none, s + 1, .val (d, c)⟩]⟩ }) := by
      rw [Relation.commit, hlcs1]
      simp only [Relation.checkCommitSet, hT1, MvccTuple.can_commit, hfoT1, hAny,
        Bool.false_eq_true, if_false, if_true, Relation.applyCommits, hDC]
    rw [hp2]
    have htail := c2_tail
      ({ (Relation.insert (Tx.mk id1 s) d c st0).2 with
          values := insertA (Relation.insert (Tx.mk id1 s) d c st0).2.values tid
            ⟨T.versions ++ [⟨Option.none, s + 1, .val (d, c)⟩]⟩ })
      d c tid T.versions s idr sr id2 s2 idr2 sr2
      (by simp only [RelationState.l_index]; rw [hl1]; exact hA)
      (by simp only [RelationState.values]; exact lookupA_insertA_self _ _ _)
      hOwn
      (fun e he => le_trans (hmax e he) hbs)
      (by simp only [RelationState.commit_sets]; rw [hcs1]; simp [lookupA, hid, Ne.symm hid])
      hsr hs2 hsr2
    exact ⟨htail.1, htail.2.1, htail.2.2.1, htail.2.2.2⟩
  | none =>
    -- fresh key : a new tuple is created
    have hsetF : (MvccTuple.new s (EntryValue.tombstone (V := L × R))).set id1 s (d, c) =
        ⟨[⟨Option.none, s, .tombstone⟩, ⟨some id1, s, .val (d, c)⟩]⟩ := by
      unfold MvccTuple.new MvccTuple.set
      rw [setOwn_all_not id1 _ _ (by
        intro e he
        simp only [List.mem_singleton] at he
        subst he
        exact fun hx => Option.noConfusion hx)]
      simp
    have hp1 : Relation.insert (Tx.mk id1 s) d c st0 =
        (.ok, Relation.add_to_commit_set ⟨id1, s⟩ st0.next_tuple_id
          (Relation.withRIndex
            { st0 with
              next_tuple_id := st0.next_tuple_id + 1
              values := insertA st0.values st0.next_tuple_id
                ⟨[⟨Option.none, s, .tombstone⟩, ⟨some id1, s, .val (d, c)⟩]⟩
              l_index := insertA st0.l_index d st0.next_tuple_id }
            (fun ri => Relation.rIndexAdd ri c st0.next_tuple_id))) := by
      rw [Relation.insert]
      simp only [hA, hsetF]
    have hv1 : (Relation.insert (Tx.mk id1 s) d c st0).2.values =
        insertA st0.values st0.next_tuple_id
          ⟨[⟨Option.none, s, .tombstone⟩, ⟨some id1, s, .val (d, c)⟩]⟩ := by
      rw [hp1]; simp
    have hl1 : (Relation.insert (Tx.mk id1 s) d c st0).2.l_index =
        insertA st0.l_index d st0.next_tuple_id := by
      rw [hp1]; simp
    have hcs1 : (Relation.insert (Tx.mk id1 s) d c st0).2.commit_sets =
        [(id1, [st0.next_tuple_id])] := by
      rw [hp1]
      simp only [Relation.withRIndex_commit_sets, add_to_commit_set_cs]
      simp [hcs0, lookupA, insertA]
    have hT1 : lookupA (Relation.insert (Tx.mk id1 s) d c st0).2.values st0.next_tuple_id =
        some ⟨[⟨Option.none, s, .tombstone⟩, ⟨some id1, s, .val (d, c)⟩]⟩ := by
      rw [hv1]; exact lookupA_insertA_self _ _ _
    have hlcs1 : lookupA (Relation.insert (Tx.mk id1 s) d c st0).2.commit_sets id1 =
        some [st0.next_tuple_id] := by
      rw [hcs1]; simp [lookupA]
    have hfoT1 : findOwnIdx id1
        [(⟨Option.none, s, .tombstone⟩ : MvccEntry (L × R)), ⟨some id1, s, .val (d, c)⟩] =
        some (1, ⟨some id1, s, .val (d, c)⟩) := by
      have := findOwnIdx_append_own id1 [(⟨Option.none, s, .tombstone⟩ : MvccEntry (L × R))]
        (⟨some id1, s, .val (d, c)⟩ : MvccEntry (L × R)) [] (by
          intro e he
          simp only [List.mem_singleton] at he
          subst he
          exact fun hx => Option.noConfusion hx) rfl
      simpa using this
    have hAnyF : ([(⟨Option.none, s, .tombstone⟩ : MvccEntry (L × R)), ⟨some id1, s, .val (d, c)⟩].any
        (fun e => decide (e.owner = Option.none ∧ s < e.ts))) = false := by
      simp
    have hDC : MvccTuple.do_commit
        (⟨[⟨Option.none, s, .tombstone⟩, ⟨some id1, s, .val (d, c)⟩]⟩ : MvccTuple (L × R)) s 1 =
        ⟨[⟨Option.none, s, .tombstone⟩, ⟨Option.none, s + 1, .val (d, c)⟩]⟩ := by
      unfold MvccTuple.do_commit
      have hca := commitAt_append s [(⟨Option.none, s, .tombstone⟩ : MvccEntry (L × R))]
        (⟨some id1, s, .val (d, c)⟩ : MvccEntry (L × R)) []
      simpa using hca
    have hp2 : Relation.commit (Tx.mk id1 s) (Relation.insert (Tx.mk id1 s) d c st0).2 =
        (.ok, { (Relation.insert (Tx.mk id1 s) d c st0).2 with
          values := insertA (Relation.insert (Tx.mk id1 s) d c st0).2.values st0.next_tuple_id
            ⟨[⟨Option.none, s, .tombstone⟩, ⟨Option.none, s + 1, .val (d, c)⟩]⟩ }) := by
      rw [Relation.commit, hlcs1]
      simp only [Relation.checkCommitSet, hT1, MvccTuple.can_commit, hfoT1, hAnyF,
        Bool.false_eq_true, if_false, if_true, Relation.applyCommits, hDC]
    rw [hp2]
    have htail := c2_tail
      ({ (Relation.insert (Tx.mk id1 s) d c st0).2 with
          values := insertA (Relation.insert (Tx.mk id1 s) d c st0).2.values st0.next_tuple_id
            ⟨[⟨Option.none, s, .tombstone⟩, ⟨Option.none, s + 1, .val (d, c)⟩]⟩ })
      d c st0.next_tuple_id [⟨Option.none, s, .tombstone⟩] s idr sr id2 s2 idr2 sr2
      (by simp only [RelationState.l_index]; rw [hl1]; exact lookupA_insertA_self _ _ _)
      (by simp only [RelationState.values]; exact lookupA_insertA_self _ _ _)
      (by intro e he; simp only [List.mem_singleton] at he; subst he; rfl)
      (by intro e he; simp only [List.mem_singleton] at he; subst he; exact Nat.le_refl s)
      (by simp only [RelationState.commit_sets]; rw [hcs1]; simp [lookupA, hid, Ne.symm hid])
      hsr hs2 hsr2
    exact ⟨htail.1, htail.2.1, htail.2.2.1, htail.2.2.2⟩

def c2Demo : RelationState Nat Nat := ⟨0, [], [], Option.none, []⟩

theorem insert_commit_roundtrip_witness :
    (c2Run c2Demo 4 9 1 1 2 2 3 2 4 3).seek1 = some 9 ∧
    (c2Run c2Demo 4 9 1 1 2 2 3 2 4 3).r2 = .ok ∧
    (c2Run c2Demo 4 9 1 1 2 2 3 2 4 3).c2 = .ok ∧
    (c2Run c2Demo 4 9 1 1 2 2 3 2 4 3).seek2 = none :=
  insert_commit_roundtrip c2Demo 4 9 1 1 2 2 3 2 4 3 (by decide) (by decide) (by decide) (by decide)
    (by decide) (by decide) (by decide)

/-! ### Claim C8: the secondary index is not versioned

`remove_for_l` (relations.rs lines 217-223) removes the tuple id from the
`r_index` entry immediately, before the removing transaction commits.  A
reader that has not touched the relation therefore sees its
`seek_for_r_eq` result change between two identical reads — the source
itself flags this: "TODO versioning on secondary indexes is suspect" /
"TODO: this is not versioned...". -/

/-- An empty bidirectional relation. -/
def c8Rel0 : RelationState Nat Nat := ⟨0, [], [], some [], []⟩

/-- Transaction 1 inserts `(10, 20)` and commits. -/
def c8Setup : RelationState Nat Nat :=
  (Relation.commit ⟨1, 1⟩ (Relation.insert ⟨1, 1⟩ 10 20 c8Rel0).2).2

/-- The reader transaction, begun after the insert committed. -/
def c8Reader : Tx := ⟨2, 2⟩

/-- The reader's first codomain query. -/
def c8Read1 : Option (List Nat) := Relation.seek_for_r_eq c8Reader 20 c8Setup

/-- Between the reader's two queries, transaction 3 performs
`remove_for_l 10` — without committing. -/
def c8Read2 : Option (List Nat) :=
  Relation.seek_for_r_eq c8Reader 20 (Relation.remove_for_l ⟨3, 3⟩ 10 c8Setup).2

/-- Claim C8 fails on the code: the same transaction repeats the same
`seek_for_r_eq` query and observes different results after another
transaction's uncommitted `remove_for_l`, because the codomain index is
mutated in place without versioning. -/
theorem seek_for_r_eq_unstable_under_concurrent_remove :
    c8Read1 = some [10] ∧ c8Read2 = some [] ∧ c8Read1 ≠ c8Read2 := by
  decide

/-! ### Values and value operations (`moor-value/src/var/varops.rs`)

`Var` is the MOO value type (`Variant` in the source).  Source `f64`
floats are embedded as rationals: every claim below exercises only the
integer and structural cases, and the float arms are carried along so
each `match` keeps the source's shape.  64-bit machine integers are
embedded as unbounded `Int` together with the explicit two's-complement
reduction `wrap64`; the release profile compiles `i64` arithmetic with
`overflow-checks = false`, i.e. wrap-around.  Strings are lists of
characters.  `Objid` payloads and the `Label`/name indices are numbers.
The variants the claims never reach (`_` arms in every source match)
are represented exactly as far as needed to be distinct. -/

inductive VmError where
  | E_NONE
  | E_TYPE
  | E_DIV
  | E_PERM
  | E_PROPNF
  | E_VERBNF
  | E_VARNF
  | E_INVIND
  | E_RECMOVE
  | E_MAXREC
  | E_RANGE
  | E_ARGS
  | E_NACC
  | E_INVARG
  | E_QUOTA
  | E_FLOAT
deriving DecidableEq

inductive Var where
  | int (i : Int)
  | float (r : Rat)
  | str (s : List Char)
  | obj (o : Int)
  | err (e : VmError)
  | list (l : List Var)
  | vnone

mutual

/-- Structural (derived `PartialEq`) equality on `Var`, written out by
hand because `Var` nests under `List`. -/
def Var.decEq : (a b : Var) → Decidable (a = b)
  | .int a, .int b =>
      if h : a = b then .isTrue (congrArg Var.int h)
      else .isFalse (fun he => h (Var.int.inj he))
  | .float a, .float b =>
      if h : a = b then .isTrue (congrArg Var.float h)
      else .isFalse (fun he => h (Var.float.inj he))
  | .str a, .str b =>
      if h : a = b then .isTrue (congrArg Var.str h)
      else .isFalse (fun he => h (Var.str.inj he))
  | .obj a, .obj b =>
      if h : a = b then .isTrue (congrArg Var.obj h)
      else .isFalse (fun he => h (Var.obj.inj he))
  | .err a, .err b =>
      if h : a = b then .isTrue (congrArg Var.err h)
      else .isFalse (fun he => h (Var.err.inj he))
  | .list a, .list b =>
      match Var.decEqList a b with
      | .isTrue h => .isTrue (congrArg Var.list h)
      | .isFalse h => .isFalse (fun he => h (Var.list.inj he))
  | .vnone, .vnone => .isTrue rfl
  | .int _, .float _ => .isFalse (fun h => Var.noConfusion h)
  | .int _, .str _ => .isFalse (fun h => Var.noConfusion h)
  | .int _, .obj _ => .isFalse (fun h => Var.noConfusion h)
  | .int _, .err _ => .isFalse (fun h => Var.noConfusion h)
  | .int _, .list _ => .isFalse (fun h => Var.noConfusion h)
  | .int _, .vnone => .isFalse (fun h => Var.noConfusion h)
  | .float _, .int _ => .isFalse (fun h => Var.noConfusion h)
  | .float _, .str _ => .isFalse (fun h => Var.noConfusion h)
  | .float _, .obj _ => .isFalse (fun h => Var.noConfusion h)
  | .float _, .err _ => .isFalse (fun h => Var.noConfusion h)
  | .float _, .list _ => .isFalse (fun h => Var.noConfusion h)
  | .float _, .vnone => .isFalse (fun h => Var.noConfusion h)
  | .str _, .int _ => .isFalse (fun h => Var.noConfusion h)
  | .str _, .float _ => .isFalse (fun h => Var.noConfusion h)
  | .str _, .obj _ => .isFalse (fun h => Var.noConfusion h)
  | .str _, .err _ => .isFalse (fun h => Var.noConfusion h)
  | .str _, .list _ => .isFalse (fun h => Var.noConfusion h)
  | .str _, .vnone => .isFalse (fun h => Var.noConfusion h)
  | .obj _, .int _ => .isFalse (fun h => Var.noConfusion h)
  | .obj _, .float _ => .isFalse (fun h => Var.noConfusion h)
  | .obj _, .str _ => .isFalse (fun h => Var.noConfusion h)
  | .obj _, .err _ => .isFalse (fun h => Var.noConfusion h)
  | .obj _, .list _ => .isFalse (fun h => Var.noConfusion h)
  | .obj _, .vnone => .isFalse (fun h => Var.noConfusion h)
  | .err _, .int _ => .isFalse (fun h => Var.noConfusion h)
  | .err _, .float _ => .isFalse (fun h => Var.noConfusion h)
  | .err _, .str _ => .isFalse (fun h => Var.noConfusion h)
  | .err _, .obj _ => .isFalse (fun h => Var.noConfusion h)
  | .err _, .list _ => .isFalse (fun h => Var.noConfusion h)
  | .err _, .vnone => .isFalse (fun h => Var.noConfusion h)
  | .list _, .int _ => .isFalse (fun h => Var.noConfusion h)
  | .list _, .float _ => .isFalse (fun h => Var.noConfusion h)
  | .list _, .str _ => .isFalse (fun h => Var.noConfusion h)
  | .list _, .obj _ => .isFalse (fun h => Var.noConfusion h)
  | .list _, .err _ => .isFalse (fun h => Var.noConfusion h)
  | .list _, .vnone => .isFalse (fun h => Var.noConfusion h)
  | .vnone, .int _ => .isFalse (fun h => Var.noConfusion h)
  | .vnone, .float _ => .isFalse (fun h => Var.noConfusion h)
  | .vnone, .str _ => .isFalse (fun h => Var.noConfusion h)
  | .vnone, .obj _ => .isFalse (fun h => Var.noConfusion h)
  | .vnone, .err _ => .isFalse (fun h => Var.noConfusion h)
  | .vnone, .list _ => .isFalse (fun h => Var.noConfusion h)
def Var.decEqList : (xs ys : List Var) → Decidable (xs = ys)
  | [], [] => .isTrue rfl
  | [], _ :: _ => .isFalse (fun h => List.noConfusion h)
  | _ :: _, [] => .isFalse (fun h => List.noConfusion h)
  | x :: xs, y :: ys =>
      match Var.decEq x y with
      | .isTrue h1 =>
          match Var.decEqList xs ys with
          | .isTrue h2 => .isTrue (by rw [h1, h2])
          | .isFalse h2 => .isFalse (fun he => h2 (by injection he))
      | .isFalse h1 => .isFalse (fun he => h1 (by injection he))
end

instance : DecidableEq Var := Var.decEq

def v_int (i : Int) : Var := .int i

def v_err (e : VmError) : Var := .err e

def v_none : Var := .vnone

/-- Source `v_bool` from the source: `v_int(if b { 1 } else { 0 })`. -/
def v_bool (b : Bool) : Var := v_int (if b then 1 else 0)

/-- Two's-complement wrap-around of a mathematical integer into the
`i64` range `[-2^63, 2^63)`: release-profile Rust `i64` arithmetic. -/
def wrap64 (n : Int) : Int := (n + 2 ^ 63) % 2 ^ 64 - 2 ^ 63

/-- The Rust cast `as u32` applied to an `i64`. -/
def u32cast (n : Int) : Nat := (n % 2 ^ 32).toNat

/-- The Rust cast `as i32` applied to an `i64`. -/
def i32cast (n : Int) : Int := (n + 2 ^ 31) % 2 ^ 32 - 2 ^ 31

/-- The Rust cast `as usize` applied to an `i64`. -/
def usizeCast (n : Int) : Nat := (n % 2 ^ 64).toNat

/-- Source `i64::MIN`. -/
def i64Min : Int := -(2 ^ 63)

def Var.is_true : Var → Bool
  | .str s => !s.isEmpty
  | .int i => i != 0
  | .float f => !(f == 0)
  | .list l => !l.isEmpty
  | _ => false

/-- Outcome of a value operation: `Ok`, `Err`, or a Rust panic. -/
inductive OpRet where
  | ok (v : Var)
  | err (e : VmError)
  | crash
deriving DecidableEq

/-- The guard in `index_set` reads `!i < l.len()`.  `!` binds to `i`
alone, so the comparison is between the bitwise complement of the
64-bit index and the length, not the negation of `i < l.len()`. -/
def notU64 (i : Nat) : Nat := 2 ^ 64 - 1 - i

/-- Source `Var::index_set` (varops.rs:35).  The out-of-range `set` on the
underlying persistent vector is represented by `List.set` (identity
out of range); no theorem below relies on an out-of-range result other
than it not being `E_RANGE`. -/
def Var.index_set (self : Var) (i : Nat) (value : Var) : OpRet :=
  match self with
  | .list l =>
      if notU64 i < l.length then .err .E_RANGE
      else .ok (.list (l.set i value))
  | .str s =>
      if notU64 i < s.length then .err .E_RANGE
      else
        match value with
        | .str v =>
            match v with
            | [c] => .ok (.str (s.set i c))
            | _ => .err .E_INVARG
        | _ => .err .E_INVARG
  | _ => .err .E_TYPE

/-- Source `Var::index_in` (varops.rs:70): 1-indexed position of the first
occurrence, `v_int 0` if absent, `E_TYPE` value if not a list. -/
def Var.index_in (self v : Var) : Var :=
  match self with
  | .list l =>
      match l.findIdx? (fun x => x == v) with
      | Option.none => v_int 0
      | some i => v_int (Int.ofNat i + 1)
  | _ => v_err .E_TYPE

/-- Source `Var::mul` (binary_numeric_coercion_op). -/
def Var.mul (self v : Var) : OpRet :=
  match self, v with
  | .float l, .float r => .ok (.float (l * r))
  | .int l, .int r => .ok (v_int (wrap64 (l * r)))
  | .float l, .int r => .ok (.float (l * (r : Rat)))
  | .int l, .float r => .ok (.float ((l : Rat) * r))
  | _, _ => .ok (v_err .E_TYPE)

/-- Source `Var::div` (binary_numeric_coercion_op).  Rust `i64` division
panics on a zero divisor and on `i64::MIN / -1` in every profile;
`f64` division is total (we carry the rational junk value `l / 0 = 0`
for the zero-divisor float case, which no claim exercises). -/
def Var.div (self v : Var) : OpRet :=
  match self, v with
  | .float l, .float r => .ok (.float (l / r))
  | .int l, .int r =>
      if r = 0 ∨ (l = i64Min ∧ r = -1) then .crash
      else .ok (v_int (Int.tdiv l r))
  | .float l, .int r => .ok (.float (l / (r : Rat)))
  | .int l, .float r => .ok (.float ((l : Rat) / r))
  | _, _ => .ok (v_err .E_TYPE)

/-- Source `Var::sub` (binary_numeric_coercion_op). -/
def Var.sub (self v : Var) : OpRet :=
  match self, v with
  | .float l, .float r => .ok (.float (l - r))
  | .int l, .int r => .ok (v_int (wrap64 (l - r)))
  | .float l, .int r => .ok (.float (l - (r : Rat)))
  | .int l, .float r => .ok (.float ((l : Rat) - r))
  | _, _ => .ok (v_err .E_TYPE)

/-- Source `Var::add` (varops.rs:85), including string concatenation. -/
def Var.add (self v : Var) : OpRet :=
  match self, v with
  | .float l, .float r => .ok (.float (l + r))
  | .int l, .int r => .ok (v_int (wrap64 (l + r)))
  | .float l, .int r => .ok (.float (l + (r : Rat)))
  | .int l, .float r => .ok (.float ((l : Rat) + r))
  | .str s, .str r => .ok (.str (s ++ r))
  | _, _ => .ok (v_err .E_TYPE)

/-- Source `Var::negative` (varops.rs:96).  Release-profile `-i64::MIN`
wraps back to `i64::MIN`. -/
def Var.negative (self : Var) : OpRet :=
  match self with
  | .int l => .ok (v_int (wrap64 (-l)))
  | .float f => .ok (.float (-f))
  | _ => .ok (v_err .E_TYPE)

/-- Truncation toward zero of a rational, for `f64 %` (fmod). -/
def truncQ (q : Rat) : Int := if 0 ≤ q then q.floor else q.ceil

/-- Truncated remainder on rationals, the semantics of `f64 %` at
finite non-exceptional arguments (a zero divisor yields NaN in the
source; the rational stand-in yields `a`; no claim exercises it). -/
def fmodQ (a b : Rat) : Rat := a - b * (truncQ (a / b) : Rat)

/-- Source `Var::modulus` (varops.rs:104).  Rust `i64 %` panics on a zero
divisor and on `i64::MIN % -1` in every profile. -/
def Var.modulus (self v : Var) : OpRet :=
  match self, v with
  | .float l, .float r => .ok (.float (fmodQ l r))
  | .int l, .int r =>
      if r = 0 ∨ (l = i64Min ∧ r = -1) then .crash
      else .ok (v_int (Int.tmod l r))
  | .float l, .int r => .ok (.float (fmodQ l (r : Rat)))
  | .int l, .float r => .ok (.float (fmodQ (l : Rat) r))
  | _, _ => .ok (v_err .E_TYPE)

/-- Stand-in for `f64::powf` at rational arguments: exact for integer
exponents, junk (0) otherwise; no claim exercises the float arms. -/
def powfQ (l r : Rat) : Rat := if r.den = 1 then l ^ r.num else 0

/-- Source `Var::pow` (varops.rs:114).  The integer arm is
`l.pow(*r as u32)`: the exponent is the `u32` cast of `r`, and the
repeated release-profile multiplication equals the mathematical power
reduced by `wrap64`. -/
def Var.pow (self v : Var) : OpRet :=
  match self, v with
  | .float l, .float r => .ok (.float (powfQ l r))
  | .int l, .int r => .ok (v_int (wrap64 (l ^ u32cast r)))
  | .float l, .int r => .ok (.float (l ^ i32cast r))
  | .int l, .float r => .ok (.float (powfQ (l : Rat) r))
  | _, _ => .ok (v_err .E_TYPE)

/-- Source `Var::len` (varops.rs:124). -/
def Var.len (self : Var) : OpRet :=
  match self with
  | .str s => .ok (v_int (Int.ofNat s.length))
  | .list l => .ok (v_int (Int.ofNat l.length))
  | _ => .ok (v_err .E_TYPE)

/-- Source `Var::index` (varops.rs:132), 0-indexed; out of range yields the
`E_RANGE` *value* wrapped in `Ok`, exactly as the source does. -/
def Var.index (self : Var) (idx : Nat) : OpRet :=
  match self with
  | .list l =>
      match l.get? idx with
      | Option.none => .ok (v_err .E_RANGE)
      | some v => .ok v
  | .str s =>
      match s.get? idx with
      | Option.none => .ok (v_err .E_RANGE)
      | some c => .ok (.str [c])
  | _ => .ok (v_err .E_TYPE)

/-! ### The bytecode interpreter
(`crates/kernel/src/vm/vm_execute.rs`, `moor-lib/src/vm/vm_unwind.rs`)

The opcode set below is the subset of `Op` (src/vm/opcode.rs) whose
interpreter arms the claims reach, with the same constructor names and
label/name payloads as numbers.  World-state, property, fork, builtin
and verb-call opcodes would exit the interpreter into the scheduler
and are outside every claim; they are omitted rather than stubbed. -/

/-- Source `one_to_zero_index` (vm_execute.rs:149): 1-indexed `Var` to
0-indexed machine index; non-integer is `E_TYPE`, index `< 1` is
`E_RANGE`. -/
def one_to_zero_index (v : Var) : Except VmError Nat :=
  match v with
  | .int index =>
      if index - 1 < 0 then .error .E_RANGE else .ok (index - 1).toNat
  | _ => .error .E_TYPE

/-- Source `FinallyReason` (vm_unwind.rs:13).  Strings are `List Char`. -/
inductive FinallyReason where
  | Fallthrough
  | Raise (code : VmError) (msg : List Char) (stack : List Var)
  | Uncaught (code : VmError) (msg : List Char) (value : Var)
      (stack : List Var) (backtrace : List Var)
  | Return (v : Var)
  | Abort
  | Exit (stack : Nat) (label : Nat)
deriving DecidableEq

def FINALLY_REASON_RAISE : Nat := 0
def FINALLY_REASON_UNCAUGHT : Nat := 1
def FINALLY_REASON_RETURN : Nat := 2
def FINALLY_REASON_ABORT : Nat := 3
def FINALLY_REASON_EXIT : Nat := 4
def FINALLY_REASON_FALLTHROUGH : Nat := 5

/-- Source `FinallyReason::code` (vm_unwind.rs:42).  Note the source maps
`Fallthrough` to `FINALLY_REASON_RAISE` (0), not to
`FINALLY_REASON_FALLTHROUGH`. -/
def FinallyReason.code : FinallyReason → Nat
  | .Fallthrough => FINALLY_REASON_RAISE
  | .Raise _ _ _ => FINALLY_REASON_RAISE
  | .Uncaught _ _ _ _ _ => FINALLY_REASON_UNCAUGHT
  | .Return _ => FINALLY_REASON_RETURN
  | .Abort => FINALLY_REASON_ABORT
  | .Exit _ _ => FINALLY_REASON_EXIT

/-- Source `FinallyReason::from_code` (vm_unwind.rs:52).  Every legal code is
mapped to `Fallthrough`; an out-of-range code panics (`none`). -/
def FinallyReason.from_code (code : Nat) : Option FinallyReason :=
  match code with
  | 0 => some .Fallthrough
  | 1 => some .Fallthrough
  | 2 => some .Fallthrough
  | 3 => some .Fallthrough
  | 4 => some .Fallthrough
  | 5 => some .Fallthrough
  | _ => Option.none

/-- Source `HandlerType` (vm/activation.rs). -/
inductive HandlerType where
  | Catch (cnt : Nat)
  | CatchLabel (label : Nat)
  | Finally (label : Nat)
deriving DecidableEq

/-- Modelled from the spec: a handler-stack entry — handler kind plus
the value-stack depth recorded when it was pushed (spec I6);
activation.rs is not among the sources. -/
structure Handler where
  handler_type : HandlerType
  valstack_pos : Nat
deriving DecidableEq

/-- The opcode subset (src/vm/opcode.rs) reached by the claims. -/
inductive Op where
  | If (label : Nat)
  | Eif (label : Nat)
  | IfQues (label : Nat)
  | While (label : Nat)
  | Jump (label : Nat)
  | WhileId (id : Nat) (end_label : Nat)
  | Pop
  | ImmInt (i : Int)
  | ImmNone
  | ImmErr (e : VmError)
  | Push (id : Nat)
  | Put (id : Nat)
  | Eq
  | Ne
  | Mul
  | Sub
  | Div
  | Add
  | Exp
  | Mod
  | And (label : Nat)
  | Or (label : Nat)
  | Not
  | UnaryMinus
  | IndexSet
  | Ref
  | Return
  | Return0
  | Done
  | PushLabel (label : Nat)
  | TryFinally (label : Nat)
  | Catch
  | TryExcept (num_excepts : Nat)
  | EndFinally
  | Continue
deriving DecidableEq

/-- Modelled from the spec: one frame of the VM call stack (spec §3
`Activation`) — program, program counter, value stack (head = top),
handler stack (head = most recent), environment, temp register;
activation.rs is not among the sources.  The remaining source fields
(permissions, verb info, spans) never influence the executed claims
and are omitted. -/
structure Activation where
  prog : List Op
  pc : Nat
  valstack : List Var
  handler_stack : List Handler
  env : List (Nat × Var)
  temp : Var
deriving DecidableEq

/-- Modelled from the spec: `Activation::push` — push a value. -/
def Activation.push (a : Activation) (v : Var) : Activation :=
  { a with valstack := v :: a.valstack }

/-- Modelled from the spec: `Activation::jump` — set the program
counter to a jump label (labels are already opcode offsets here). -/
def Activation.jump (a : Activation) (label : Nat) : Activation :=
  { a with pc := label }

/-- Modelled from the spec: `Activation::set_env`. -/
def Activation.set_env (a : Activation) (id : Nat) (v : Var) : Activation :=
  { a with env := insertA a.env id v }

/-- Modelled from the spec: `Activation::get_env`. -/
def Activation.get_env (a : Activation) (id : Nat) : Option Var :=
  lookupA a.env id

/-- Modelled from the spec: `Activation::push_handler_label` records
the handler with the current value-stack depth (spec I6). -/
def Activation.push_handler_label (a : Activation) (t : HandlerType) : Activation :=
  { a with handler_stack := ⟨t, a.valstack.length⟩ :: a.handler_stack }

/-- Modelled from the spec: `pop_applicable_handler` pops the most
recent handler exactly when the value stack has shrunk to (or past)
its recorded depth — spec §6: "each time the value stack shrinks
across a handler's recorded depth, invoke that handler". -/
def popApplicable (len : Nat) (hs : List Handler) :
    Option (Handler × List Handler) :=
  match hs with
  | [] => Option.none
  | h :: t => if len ≤ h.valstack_pos then some (h, t) else Option.none

def Activation.pop_applicable_handler (a : Activation) :
    Option (Handler × Activation) :=
  match popApplicable a.valstack.length a.handler_stack with
  | Option.none => Option.none
  | some (h, t) => some (h, { a with handler_stack := t })

/-- Source `ExecutionResult` (vm_execute.rs): the alternatives reachable in
the embedded opcode subset. -/
inductive ExecutionResult where
  | Complete (v : Var)
  | More
  | Exception (why : FinallyReason)
deriving DecidableEq

/-- Outcome of the value-stack walk inside one activation in
`unwind_stack` (vm_unwind.rs:241-299): either the stack drained with
no handler hit, a finally or catch handler fired (with the remaining
value/handler stacks), or the walk panicked. -/
inductive UnwindHit where
  | noHandler (vals : List Var) (hs : List Handler)
  | finallyHit (label : Nat) (code : Nat) (vals : List Var) (hs : List Handler)
  | catchHit (label : Nat) (code : VmError) (vals : List Var) (hs : List Handler)
  | crashed

/-- The inner `while a.valstack.pop().is_some()` loop of
`unwind_stack` (vm_unwind.rs:242-299). -/
def unwindLoop (why : FinallyReason) : List Var → List Handler → UnwindHit
  | [], hs => .noHandler [] hs
  | _ :: vs, hs =>
    match popApplicable vs.length hs with
    | Option.none => unwindLoop why vs hs
    | some (h, hs1) =>
      match h.handler_type with
      | .Finally label =>
          if why.code = FinallyReason.Abort.code then unwindLoop why vs hs1
          else .finallyHit label why.code vs hs1
      | .Catch _ =>
          match why with
          | .Raise code _ _ =>
              match popApplicable vs.length hs1 with
              | Option.none => unwindLoop why vs hs1
              | some (h2, hs2) =>
                  match h2.handler_type with
                  | .CatchLabel pushed_label =>
                      match vs with
                      | [] => .crashed
                      | v :: vs2 =>
                          match v with
                          | .list error_codes =>
                              if error_codes.contains (v_err code) then
                                .catchHit pushed_label code vs2 hs2
                              else unwindLoop why vs2 hs2
                          | _ => .catchHit pushed_label code vs2 hs2
                  | _ => .crashed
          | _ => unwindLoop why vs hs1
      | .CatchLabel _ => .crashed

/-- Source `VM::unwind_stack` (vm_unwind.rs:235): unwind the top activation
with reason `why`; `none` is a source panic/unreachable.  The source
function returns after handling a single activation frame: a handler
hit resumes in the same frame (`More`), an `Exit` jumps in the same
frame, `Uncaught` pops everything (`Exception`), and otherwise the
frame is popped, completing the task or pushing the return value onto
the parent. -/
def unwind_stack (why : FinallyReason) (stack : List Activation) :
    Option (ExecutionResult × List Activation) :=
  match stack with
  | [] => Option.none
  | a :: rest =>
    match unwindLoop why a.valstack a.handler_stack with
    | .crashed => Option.none
    | .finallyHit label code vals hs =>
        some (.More,
          { a with
            pc := label
            valstack := v_int (Int.ofNat code) :: vals
            handler_stack := hs } :: rest)
    | .catchHit label code vals hs =>
        some (.More,
          { a with
            pc := label
            valstack := v_err code :: vals
            handler_stack := hs } :: rest)
    | .noHandler vals hs =>
        match why with
        | .Exit _ label =>
            some (.More,
              { a with
                pc := label
                valstack := vals
                handler_stack := hs } :: rest)
        | .Uncaught c m v s b => some (.Exception (.Uncaught c m v s b), [])
        | _ =>
            let return_value := match why with | .Return v => v | _ => v_none
            match rest with
            | [] => some (.Complete return_value, [])
            | next :: rest2 => some (.More, next.push return_value :: rest2)

/-- Source `VM::push_error` (vm_unwind.rs:182) for a verb without the debug
flag set, the configuration all claim programs run under — spec §6:
"when a verb lacks the debug flag, `push_error(code)` only pushes the
error value without raising".  Pushes the error value and yields
`More`; an empty activation stack would panic (`none`). -/
def push_error (stack : List Activation) (code : VmError) :
    Option (ExecutionResult × List Activation) :=
  match stack with
  | [] => Option.none
  | a :: rest => some (.More, a.push (v_err code) :: rest)

/-- Result of dispatching one opcode inside the `exec` loop: fall
through to the next iteration, return from `exec` with a result, or
panic. -/
inductive StepOut where
  | next (m : List Activation)
  | done (r : ExecutionResult) (m : List Activation)
  | crash

/-- The `binary_var_op!` macro (vm_execute.rs:133): pop the right
operand, apply to the left operand in place; on an operation `Err`,
pop and take the `push_error` path; a panic in the operation is a
panic of the interpreter. -/
def binOpStep (f : Var → Var → OpRet) (a : Activation)
    (rest : List Activation) : StepOut :=
  match a.valstack with
  | rhs :: lhs :: vs =>
      match f lhs rhs with
      | .ok result => .next ({ a with valstack := result :: vs } :: rest)
      | .err e =>
          match push_error ({ a with valstack := vs } :: rest) e with
          | Option.none => .crash
          | some (r, m1) => .done r m1
      | .crash => .crash
  | _ => .crash

/-- One iteration of the opcode dispatch in `VM::exec`
(vm_execute.rs:194-846) over the embedded opcode subset.  Fetching
past the end of the program, popping an empty value stack, and the
source's `panic!` arms are all `crash`. -/
def execOp (m : List Activation) : StepOut :=
  match m with
  | [] => .crash
  | a0 :: rest =>
    match a0.prog.get? a0.pc with
    | Option.none => .crash
    | some op =>
      let a := { a0 with pc := a0.pc + 1 }
      match op with
      | .If label | .Eif label | .IfQues label | .While label =>
          match a.valstack with
          | [] => .crash
          | cond :: vs =>
              if cond.is_true then .next ({ a with valstack := vs } :: rest)
              else .next (({ a with valstack := vs }).jump label :: rest)
      | .Jump label => .next (a.jump label :: rest)
      | .WhileId id end_label =>
          match a.valstack with
          | [] => .crash
          | cond :: vs =>
              let a1 := { a.set_env id cond with valstack := vs }
              if cond.is_true then .next (a1 :: rest)
              else .next (a1.jump end_label :: rest)
      | .Pop =>
          match a.valstack with
          | [] => .crash
          | _ :: vs => .next ({ a with valstack := vs } :: rest)
      | .ImmInt i => .next (a.push (v_int i) :: rest)
      | .ImmNone => .next (a.push v_none :: rest)
      | .ImmErr e => .next (a.push (v_err e) :: rest)
      | .Push id =>
          match a.get_env id with
          | Option.none =>
              match push_error (a :: rest) .E_VARNF with
              | Option.none => .crash
              | some (r, m1) => .done r m1
          | some v => .next (a.push v :: rest)
      | .Put id =>
          match a.valstack with
          | [] => .crash
          | v :: _ => .next (a.set_env id v :: rest)
      | .Eq =>
          match a.valstack with
          | rhs :: lhs :: vs =>
              .next ({ a with
                valstack := v_int (if lhs == rhs then 1 else 0) :: vs } :: rest)
          | _ => .crash
      | .Ne =>
          match a.valstack with
          | rhs :: lhs :: vs =>
              .next ({ a with
                valstack := v_int (if lhs != rhs then 1 else 0) :: vs } :: rest)
          | _ => .crash
      | .Mul => binOpStep Var.mul a rest
      | .Sub => binOpStep Var.sub a rest
      | .Div =>
          match a.valstack with
          | Var.int 0 :: _ :: _ =>
              match push_error (a :: rest) .E_DIV with
              | Option.none => .crash
              | some (r, m1) => .done r m1
          | _ :: _ :: _ => binOpStep Var.div a rest
          | _ => .crash
      | .Add => binOpStep Var.add a rest
      | .Exp => binOpStep Var.pow a rest
      | .Mod => binOpStep Var.modulus a rest
      | .And label =>
          match a.valstack with
          | [] => .crash
          | v :: vs =>
              if v.is_true then .next ({ a with valstack := vs } :: rest)
              else .next (a.jump label :: rest)
      | .Or label =>
          match a.valstack with
          | [] => .crash
          | v :: vs =>
              if v.is_true then .next (a.jump label :: rest)
              else .next ({ a with valstack := vs } :: rest)
      | .Not =>
          match a.valstack with
          | [] => .crash
          | v :: vs =>
              .next ({ a with valstack := v_bool (!v.is_true) :: vs } :: rest)
      | .UnaryMinus =>
          match a.valstack with
          | [] => .crash
          | v :: vs =>
              match v.negative with
              | .ok v1 => .next ({ a with valstack := v1 :: vs } :: rest)
              | .err e =>
                  match push_error ({ a with valstack := vs } :: rest) e with
                  | Option.none => .crash
                  | some (r, m1) => .done r m1
              | .crash => .crash
      | .IndexSet =>
          match a.valstack with
          | rhs :: index :: lhs :: vs =>
              match one_to_zero_index index with
              | .error e =>
                  match push_error ({ a with valstack := vs } :: rest) e with
                  | Option.none => .crash
                  | some (r, m1) => .done r m1
              | .ok i =>
                  match lhs.index_set i rhs with
                  | .ok v => .next ({ a with valstack := v :: vs } :: rest)
                  | .err e =>
                      match push_error ({ a with valstack := vs } :: rest) e with
                      | Option.none => .crash
                      | some (r, m1) => .done r m1
                  | .crash => .crash
          | _ => .crash
      | .Ref =>
          match a.valstack with
          | index :: l :: vs =>
              match one_to_zero_index index with
              | .error e =>
                  match push_error ({ a with valstack := vs } :: rest) e with
                  | Option.none => .crash
                  | some (r, m1) => .done r m1
              | .ok i =>
                  match l.index i with
                  | .ok v => .next ({ a with valstack := v :: vs } :: rest)
                  | .err e =>
                      match push_error ({ a with valstack := vs } :: rest) e with
                      | Option.none => .crash
                      | some (r, m1) => .done r m1
                  | .crash => .crash
          | _ => .crash
      | .Return =>
          match a.valstack with
          | [] => .crash
          | v :: vs =>
              match unwind_stack (.Return v) ({ a with valstack := vs } :: rest) with
              | Option.none => .crash
              | some (r, m1) => .done r m1
      | .Return0 =>
          match unwind_stack (.Return (v_int 0)) (a :: rest) with
          | Option.none => .crash
          | some (r, m1) => .done r m1
      | .Done =>
          match unwind_stack (.Return v_none) (a :: rest) with
          | Option.none => .crash
          | some (r, m1) => .done r m1
      | .PushLabel label => .next (a.push_handler_label (.CatchLabel label) :: rest)
      | .TryFinally label => .next (a.push_handler_label (.Finally label) :: rest)
      | .Catch => .next (a.push_handler_label (.Catch 1) :: rest)
      | .TryExcept num_excepts =>
          .next (a.push_handler_label (.Catch num_excepts) :: rest)
      | .EndFinally =>
          match a.pop_applicable_handler with
          | Option.none => .crash
          | some (h, a1) =>
              match h.handler_type with
              | .Finally _ => .next ((a1.push (v_int 0)).push (v_int 0) :: rest)
              | _ => .crash
      | .Continue =>
          match a.valstack with
          | [] => .crash
          | why :: vs =>
              match why with
              | .int code =>
                  match FinallyReason.from_code (usizeCast code) with
                  | Option.none => .crash
                  | some w =>
                      match w with
                      | .Fallthrough => .next ({ a with valstack := vs } :: rest)
                      | .Abort => .crash
                      | _ =>
                          match unwind_stack w ({ a with valstack := vs } :: rest) with
                          | Option.none => .crash
                          | some (r, m1) => .done r m1
              | _ => .crash

/-- Result of one `exec` call, with panics explicit. -/
inductive ExecOut where
  | res (r : ExecutionResult)
  | panicked
deriving DecidableEq

/-- The opcode loop of `VM::exec` (vm_execute.rs:191):
`while state.tick_count < tick_slice { state.tick_count += 1; ... }`,
written with the loop variant `fuel = tick_slice - tick_count` as the
recursion argument (the loop runs exactly while it is positive).
Returns the result, the final tick count, the number of opcodes
dispatched, and the final activation stack. -/
def execFuel : Nat → Nat → List Activation →
    ExecOut × Nat × Nat × List Activation
  | 0, tick, m => (.res .More, tick, 0, m)
  | fuel + 1, tick, m =>
      match execOp m with
      | .next m1 =>
          let out := execFuel fuel (tick + 1) m1
          (out.1, out.2.1, out.2.2.1 + 1, out.2.2.2)
      | .done r m1 => (.res r, tick + 1, 1, m1)
      | .crash => (.panicked, tick + 1, 1, m)

/-- Source `VM::exec` entry into the opcode loop.  The stack-depth and
builtin-reentry preamble (vm_execute.rs:170-185) is identity for the
claim programs (stack depth ≤ 1 below any `max_stack_depth`, no
builtin frames) and is not modelled. -/
def exec (tick_slice : Nat) (tick : Nat) (m : List Activation) :
    ExecOut × Nat × Nat × List Activation :=
  execFuel (tick_slice - tick) tick m

/-- Driver: re-invoke `exec` (as the task scheduler does between
slices) while it yields `More` with tick budget remaining, up to
`fuel` re-entries. -/
def execRun (fuel : Nat) (tick_slice : Nat) (tick : Nat)
    (m : List Activation) : ExecOut × Nat × List Activation :=
  match fuel with
  | 0 => (.res .More, tick, m)
  | fuel + 1 =>
      match exec tick_slice tick m with
      | (.res .More, t1, _, m1) =>
          if t1 < tick_slice then execRun fuel tick_slice t1 m1
          else (.res .More, t1, m1)
      | (r, t1, _, m1) => (r, t1, m1)

/-- The element at the cursor of a program laid out as
`left ++ op :: right` with `pc = left.length`. -/
theorem get_append_cons {α : Type} (l1 l2 : List α) (x : α) :
    (l1 ++ x :: l2).get? l1.length = some x := by
  induction l1 with
  | nil => rfl
  | cons a t ih => simpa using ih

/-! ### Claim C3 -/

/-- A verb body `x = 99; try return 42; finally endtry; return 0;`:
`ImmInt 99` leaves a value under the handler, `TryFinally 4` registers
the finally handler with label 4, the try body returns 42, the finally
body is empty (`Continue` at label 4), and fallthrough would reach
`Return0`. -/
def c3Prog : List Op :=
  [.ImmInt 99, .TryFinally 4, .ImmInt 42, .Return, .Continue, .Return0]

def c3A : Activation := ⟨c3Prog, 0, [], [], [], v_none⟩

/-- The same computation without the try/finally wrapper. -/
def c3CtrlA : Activation := ⟨[.ImmInt 99, .ImmInt 42, .Return], 0, [], [], [], v_none⟩

/-- Claim C3 fails on the code: a `Return 42` unwound through a
`Finally` handler jumps to the finally body pushing the reason code 2,
but `FinallyReason::from_code` maps every legal code — including the
`Return` code — to `Fallthrough`, so after the finally body the
unwind is not resumed: the program falls through to `Return0` and
completes with 0 instead of 42.  The control program without the
try/finally returns 42. -/
theorem finally_reason_not_reemitted :
    execRun 10 100 0 [c3A] = (.res (.Complete (v_int 0)), 6, []) ∧
    execRun 10 100 0 [c3CtrlA] = (.res (.Complete (v_int 42)), 3, []) ∧
    (∀ v : Var,
      FinallyReason.from_code (FinallyReason.Return v).code = some .Fallthrough) := by
  refine ⟨by decide, by decide, fun v => rfl⟩

/-! ### Claim C4 -/

/-- Source `Div` on operands `5 / 0` (right operand on top of the stack). -/
def c4DivA : Activation := ⟨[.Div], 0, [Var.int 0, Var.int 5], [], [], v_none⟩

/-- Source `Mod` on operands `5 % 0`. -/
def c4ModA : Activation := ⟨[.Mod], 0, [Var.int 0, Var.int 5], [], [], v_none⟩

/-- Claim C4 holds for `Div` but fails for `Mod`: `Div` with integer
zero divisor takes the `push_error` path (`E_DIV` pushed, `More`
returned), but the `Mod` arm has no zero check, so `Var::modulus`
reaches the Rust `%` operator, which panics on a zero divisor —
for every left operand. -/
theorem mod_zero_panics_div_zero_pushes :
    exec 10 0 [c4DivA] =
      (.res .More, 1, 1,
        [{ c4DivA with
            pc := 1
            valstack := [v_err .E_DIV, Var.int 0, Var.int 5] }]) ∧
    exec 10 0 [c4ModA] = (.panicked, 1, 1, [c4ModA]) ∧
    (∀ l : Int, Var.modulus (v_int l) (v_int 0) = .crash) := by
  refine ⟨by decide, by decide, fun l => by simp [Var.modulus, v_int]⟩

/-! ### Claim C5 -/

/-- Source `IndexSet` assigning `9` to 1-indexed position `2` of the
one-element list `{7}`, then returning the list. -/
def c5A : Activation :=
  ⟨[.IndexSet, .Return], 0,
    [Var.int 9, Var.int 2, Var.list [Var.int 7]], [], [], v_none⟩

/-- Claim C5 fails on the code: the bounds guard in `Var::index_set`
reads `!i < l.len()`, which applies bitwise complement to `i` instead
of negating the comparison, so the `E_RANGE` branch is unreachable for
every remotely realistic index and length (`!i` being astronomically
large).  The concrete run assigns to position 2 of a 1-element list
and completes without `E_RANGE`; in general the operation reaches the
out-of-bounds `set` on the underlying vector. -/
theorem index_set_range_check_never_fires :
    execRun 10 100 0 [c5A] = (.res (.Complete (Var.list [Var.int 7])), 2, []) ∧
    (∀ (i : Nat) (v : Var) (l : List Var), i ≤ 2 ^ 63 → l.length ≤ 2 ^ 62 →
      Var.index_set (.list l) i v = .ok (.list (l.set i v))) := by
  refine ⟨by decide, fun i v l hi hl => ?_⟩
  have : ¬ notU64 i < l.length := by
    simp only [notU64]
    omega
  simp [Var.index_set, this]

theorem index_set_range_check_never_fires_witness :
    Var.index_set (.list [Var.int 7]) 1 (Var.int 9) = .ok (.list [Var.int 7]) := by
  have h := index_set_range_check_never_fires.2 1 (Var.int 9) [Var.int 7]
    (by norm_num) (by norm_num)
  simpa using h

/-! ### Claim C6 -/

/-- Source `Push` of an unbound variable: the interpreter takes the
`push_error` path and returns `More` after a single opcode. -/
def c6A : Activation := ⟨[.Push 0], 0, [], [], [], v_none⟩

/-- Counterexample to claim C6 as stated: `exec` can return `More`
with the tick budget far from exhausted — here the very first opcode
takes the (non-debug verb) `push_error` path and `exec` returns `More`
at tick 1 of a 10-tick slice. -/
theorem exec_more_with_budget_remaining :
    (exec 10 0 [c6A]).1 = .res .More ∧
    (exec 10 0 [c6A]).2.1 = 1 ∧ (1 : Nat) < 10 := by
  refine ⟨by decide, by decide, by decide⟩

theorem execFuel_spec (fuel : Nat) :
    ∀ (t : Nat) (m : List Activation),
      (execFuel fuel t m).2.2.1 ≤ fuel ∧
      (execFuel fuel t m).2.1 = t + (execFuel fuel t m).2.2.1 := by
  induction fuel with
  | zero => intro t m; simp [execFuel]
  | succ n ih =>
      intro t m
      cases hstep : execOp m with
      | next m1 =>
          have h := ih (t + 1) m1
          simp only [execFuel, hstep]
          exact ⟨by omega, by omega⟩
      | done r m1 => simp [execFuel, hstep]
      | crash => simp [execFuel, hstep]

/-- Claim C6, amended: the loop dispatches at most `B - t0` opcodes
and the tick counter advances exactly once per dispatched opcode (in
particular nothing executes once the tick count reaches the slice);
but the result can be `More` with budget remaining (see the
counterexample), so "More only at exhaustion" is dropped. -/
theorem exec_tick_budget (B t : Nat) (m : List Activation) (h : t ≤ B) :
    (exec B t m).2.2.1 ≤ B - t ∧
    (exec B t m).2.1 = t + (exec B t m).2.2.1 := by
  have := execFuel_spec (B - t) t m
  exact ⟨this.1, this.2⟩

theorem exec_tick_budget_witness :
    (exec 10 0 [c6A]).2.2.1 ≤ 10 - 0 ∧
    (exec 10 0 [c6A]).2.1 = 0 + (exec 10 0 [c6A]).2.2.1 :=
  exec_tick_budget 10 0 [c6A] (by decide)

/-! ### Claim C9 -/

theorem wrap64_range (n : Int) : -(2 ^ 63) ≤ wrap64 n ∧ wrap64 n < 2 ^ 63 := by
  unfold wrap64
  have h1 : (0 : Int) ≤ (n + 2 ^ 63) % 2 ^ 64 := Int.emod_nonneg _ (by norm_num)
  have h2 : (n + 2 ^ 63) % 2 ^ 64 < 2 ^ 64 := Int.emod_lt_of_pos _ (by norm_num)
  omega

theorem wrap64_modeq (n : Int) : wrap64 n ≡ n [ZMOD 2 ^ 64] := by
  unfold wrap64
  have h := (Int.mod_modEq (n + 2 ^ 63) (2 ^ 64)).sub_right (2 ^ 63)
  simpa using h

/-- Counterexample to claim C9 for `Exp`: `2 ^ 2^32` computed through
the opcode's `l.pow(*r as u32)` truncates the exponent to `u32`,
yielding `2 ^ 0 = 1`, which is not the mathematical result modulo
`2^64` (that is `0`). -/
theorem exp_exponent_truncated_mod_2_32 :
    Var.pow (v_int 2) (v_int (2 ^ 32)) = .ok (v_int 1) ∧
    ¬ ((1 : Int) ≡ 2 ^ (2 ^ 32 : Nat) [ZMOD 2 ^ 64]) := by
  constructor
  · decide
  · intro h
    have hd : (2 ^ 64 : Int) ∣ 2 ^ (2 ^ 32 : Nat) := by
      exact_mod_cast pow_dvd_pow (2 : Int) (by norm_num : 64 ≤ 2 ^ 32)
    have h0 : (2 : Int) ^ (2 ^ 32 : Nat) ≡ 0 [ZMOD 2 ^ 64] :=
      (Int.modEq_zero_iff_dvd).mpr hd
    have : (1 : Int) ≡ 0 [ZMOD 2 ^ 64] := h.trans h0
    have := Int.ModEq.dvd this
    norm_num at this

/-- Claim C9, amended: for `i64`-range operands, `Add`, `Sub` and
`Mul` produce the mathematical result reduced modulo `2^64` back into
the `i64` range; `Exp` does so only after the exponent is itself
truncated to `u32` (`r < 2^32`), the behaviour the counterexample
pins down. -/
theorem int_arith_wraps_mod_2_64 (l r : Int)
    (hl1 : -(2 ^ 63) ≤ l) (hl2 : l < 2 ^ 63)
    (hr1 : -(2 ^ 63) ≤ r) (hr2 : r < 2 ^ 63) :
    (∃ m, Var.add (v_int l) (v_int r) = .ok (v_int m) ∧
      m ≡ l + r [ZMOD 2 ^ 64] ∧ -(2 ^ 63) ≤ m ∧ m < 2 ^ 63) ∧
    (∃ m, Var.sub (v_int l) (v_int r) = .ok (v_int m) ∧
      m ≡ l - r [ZMOD 2 ^ 64] ∧ -(2 ^ 63) ≤ m ∧ m < 2 ^ 63) ∧
    (∃ m, Var.mul (v_int l) (v_int r) = .ok (v_int m) ∧
      m ≡ l * r [ZMOD 2 ^ 64] ∧ -(2 ^ 63) ≤ m ∧ m < 2 ^ 63) ∧
    (0 ≤ r → r < 2 ^ 32 →
      ∃ m, Var.pow (v_int l) (v_int r) = .ok (v_int m) ∧
        m ≡ l ^ r.toNat [ZMOD 2 ^ 64] ∧ -(2 ^ 63) ≤ m ∧ m < 2 ^ 63) := by
  refine ⟨⟨wrap64 (l + r), rfl, wrap64_modeq _, (wrap64_range _).1, (wrap64_range _).2⟩,
    ⟨wrap64 (l - r), rfl, wrap64_modeq _, (wrap64_range _).1, (wrap64_range _).2⟩,
    ⟨wrap64 (l * r), rfl, wrap64_modeq _, (wrap64_range _).1, (wrap64_range _).2⟩,
    fun hr0 hr32 => ⟨wrap64 (l ^ u32cast r), rfl, ?_, (wrap64_range _).1, (wrap64_range _).2⟩⟩
  have : u32cast r = r.toNat := by
    unfold u32cast
    rw [Int.emod_eq_of_lt hr0 hr32]
  rw [this]
  exact wrap64_modeq _

theorem int_arith_wraps_mod_2_64_witness :
    ∃ m, Var.add (v_int 3) (v_int 5) = .ok (v_int m) ∧
      m ≡ 3 + 5 [ZMOD 2 ^ 64] ∧ -(2 ^ 63) ≤ m ∧ m < 2 ^ 63 :=
  (int_arith_wraps_mod_2_64 3 5 (by norm_num) (by norm_num) (by norm_num)
    (by norm_num)).1

/-! ### Claim C10 -/

/-- Claim C10: a value is truthy exactly when it is a non-empty
string, a nonzero integer, a nonzero float, or a non-empty list; and
each conditional opcode — `If`/`Eif`/`IfQues`/`While`, `WhileId`,
`And`, `Or`, `Not` — branches on precisely `Var::is_true` of the
tested value, at any program position. -/
theorem is_true_conditional_opcodes :
    (∀ v : Var, v.is_true = true ↔
      ((∃ s, v = .str s ∧ s ≠ []) ∨ (∃ i, v = .int i ∧ i ≠ 0) ∨
       (∃ f, v = .float f ∧ f ≠ 0) ∨ (∃ l, v = .list l ∧ l ≠ []))) ∧
    (∀ label p1 p2 hs env tmp cond vs rest,
      execOp (⟨p1 ++ .If label :: p2, p1.length, cond :: vs, hs, env, tmp⟩ :: rest) =
        .next ({ prog := p1 ++ .If label :: p2,
                 pc := if cond.is_true then p1.length + 1 else label,
                 valstack := vs, handler_stack := hs, env := env,
                 temp := tmp } :: rest)) ∧
    (∀ label p1 p2 hs env tmp cond vs rest,
      execOp (⟨p1 ++ .Eif label :: p2, p1.length, cond :: vs, hs, env, tmp⟩ :: rest) =
        .next ({ prog := p1 ++ .Eif label :: p2,
                 pc := if cond.is_true then p1.length + 1 else label,
                 valstack := vs, handler_stack := hs, env := env,
                 temp := tmp } :: rest)) ∧
    (∀ label p1 p2 hs env tmp cond vs rest,
      execOp (⟨p1 ++ .IfQues label :: p2, p1.length, cond :: vs, hs, env, tmp⟩ :: rest) =
        .next ({ prog := p1 ++ .IfQues label :: p2,
                 pc := if cond.is_true then p1.length + 1 else label,
                 valstack := vs, handler_stack := hs, env := env,
                 temp := tmp } :: rest)) ∧
    (∀ label p1 p2 hs env tmp cond vs rest,
      execOp (⟨p1 ++ .While label :: p2, p1.length, cond :: vs, hs, env, tmp⟩ :: rest) =
        .next ({ prog := p1 ++ .While label :: p2,
                 pc := if cond.is_true then p1.length + 1 else label,
                 valstack := vs, handler_stack := hs, env := env,
                 temp := tmp } :: rest)) ∧
    (∀ id label p1 p2 hs env tmp cond vs rest,
      execOp (⟨p1 ++ .WhileId id label :: p2, p1.length, cond :: vs, hs, env, tmp⟩ :: rest) =
        .next ({ prog := p1 ++ .WhileId id label :: p2,
                 pc := if cond.is_true then p1.length + 1 else label,
                 valstack := vs, handler_stack := hs,
                 env := insertA env id cond, temp := tmp } :: rest)) ∧
    (∀ label p1 p2 hs env tmp cond vs rest,
      execOp (⟨p1 ++ .And label :: p2, p1.length, cond :: vs, hs, env, tmp⟩ :: rest) =
        .next ({ prog := p1 ++ .And label :: p2,
                 pc := if cond.is_true then p1.length + 1 else label,
                 valstack := if cond.is_true then vs else cond :: vs,
                 handler_stack := hs, env := env, temp := tmp } :: rest)) ∧
    (∀ label p1 p2 hs env tmp cond vs rest,
      execOp (⟨p1 ++ .Or label :: p2, p1.length, cond :: vs, hs, env, tmp⟩ :: rest) =
        .next ({ prog := p1 ++ .Or label :: p2,
                 pc := if cond.is_true then label else p1.length + 1,
                 valstack := if cond.is_true then cond :: vs else vs,
                 handler_stack := hs, env := env, temp := tmp } :: rest)) ∧
    (∀ p1 p2 hs env tmp v vs rest,
      execOp (⟨p1 ++ .Not :: p2, p1.length, v :: vs, hs, env, tmp⟩ :: rest) =
        .next ({ prog := p1 ++ .Not :: p2, pc := p1.length + 1,
                 valstack := v_bool (!v.is_true) :: vs, handler_stack := hs,
                 env := env, temp := tmp } :: rest)) := by
  refine ⟨?_, ?_, ?_, ?_, ?_, ?_, ?_, ?_, ?_⟩
  · intro v
    cases v <;> simp [Var.is_true]
  · intro label p1 p2 hs env tmp cond vs rest
    simp only [execOp, get_append_cons]
    cases hc : cond.is_true <;> simp [hc, Activation.jump]
  · intro label p1 p2 hs env tmp cond vs rest
    simp only [execOp, get_append_cons]
    cases hc : cond.is_true <;> simp [hc, Activation.jump]
  · intro label p1 p2 hs env tmp cond vs rest
    simp only [execOp, get_append_cons]
    cases hc : cond.is_true <;> simp [hc, Activation.jump]
  · intro label p1 p2 hs env tmp cond vs rest
    simp only [execOp, get_append_cons]
    cases hc : cond.is_true <;> simp [hc, Activation.jump]
  · intro id label p1 p2 hs env tmp cond vs rest
    simp only [execOp, get_append_cons]
    cases hc : cond.is_true <;>
      simp [hc, Activation.jump, Activation.set_env]
  · intro label p1 p2 hs env tmp cond vs rest
    simp only [execOp, get_append_cons]
    cases hc : cond.is_true <;> simp [hc, Activation.jump]
  · intro label p1 p2 hs env tmp cond vs rest
    simp only [execOp, get_append_cons]
    cases hc : cond.is_true <;> simp [hc, Activation.jump]
  · intro p1 p2 hs env tmp v vs rest
    simp only [execOp, get_append_cons]

/-! ### The tuple box allocator
(`crates/db/src/tuplebox/tuples/slotbox.rs`)

Only the refcount-zero free path of claim C7 is embedded: `dncount`,
`do_remove`, `report_free` and `PageSpace` come from slotbox.rs; the
slotted page itself lives in slotted_page.rs, which is not among the
sources, and is modelled from spec §4.2. -/

/-- Modelled from the spec: one slot of a slotted page (§4.2) — the
payload length, the per-slot refcount and the tombstone bit (`live =
true` means not tombstoned).  Offsets are immaterial to the free
path. -/
structure PageSlot where
  size : Nat
  refcount : Nat
  live : Bool
deriving DecidableEq

/-- Modelled from the spec: a slotted page (§4.2) as its capacity and
slot index. -/
structure SlottedPage where
  capacity : Nat
  slots : List PageSlot
deriving DecidableEq

/-- Modelled from the spec: per-slot index overhead in the free-byte
accounting (I2).  A representative constant; no theorem depends on
its value. -/
def slot_index_overhead : Nat := 16

/-- Modelled from the spec: free bytes of a page = capacity minus the
live slots' sizes plus index overhead (invariant I2). -/
def SlottedPage.free_bytes (p : SlottedPage) : Nat :=
  p.capacity -
    p.slots.foldl
      (fun acc s => if s.live then acc + s.size + slot_index_overhead else acc) 0

/-- Modelled from the spec: `dncount(slot_id) -> became_zero` (§4.2)
decrements the slot's refcount and reports whether it reached zero;
an unknown slot id is an error (`none`). -/
def SlottedPage.dncount (p : SlottedPage) (sid : Nat) : Option (Bool × SlottedPage) :=
  match p.slots.get? sid with
  | Option.none => Option.none
  | some s =>
      let rc := s.refcount - 1
      some (decide (rc = 0),
        { p with slots := p.slots.set sid { s with refcount := rc } })

/-- Modelled from the spec:
`remove_slot(slot_id) -> (new_free_bytes, old_size, is_empty)` (§4.2)
marks the slot tombstoned and returns the updated free-byte count and
whether no live slot remains. -/
def SlottedPage.remove_slot (p : SlottedPage) (sid : Nat) :
    Option (Nat × Nat × Bool × SlottedPage) :=
  match p.slots.get? sid with
  | Option.none => Option.none
  | some s =>
      let p1 := { p with slots := p.slots.set sid { s with live := false } }
      some (p1.free_bytes, s.size, p1.slots.all (fun t => !t.live), p1)

/-- Source `PageSpace` (slotbox.rs:427): two vectors, free space and block
ids, kept sorted by free space.  `Bid`s are numbers equal to their
page ids, as in the source (`Bid(pid as u64)`). -/
structure PageSpace where
  available : List Nat
  block_ids : List Nat
deriving DecidableEq

/-- Stable insertion into a list sorted by first component, equal keys
keeping insertion order — the behaviour of the source's stable
`sort_by` on the zipped pairs. -/
def insSorted (x : Nat × Nat) : List (Nat × Nat) → List (Nat × Nat)
  | [] => [x]
  | y :: ys => if x.1 < y.1 then x :: y :: ys else y :: insSorted x ys

def sortPairs : List (Nat × Nat) → List (Nat × Nat)
  | [] => []
  | x :: xs => insSorted x (sortPairs xs)

/-- Source `PageSpace::sort` (slotbox.rs:439): zip the two vectors, stably
sort by available space, unzip. -/
def PageSpace.sort (self : PageSpace) : PageSpace :=
  let pairs := sortPairs (self.available.zip self.block_ids)
  ⟨pairs.map Prod.fst, pairs.map Prod.snd⟩

/-- Source `PageSpace::insert` (slotbox.rs:452). -/
def PageSpace.insert (self : PageSpace) (available : Nat) (bid : Nat) : PageSpace :=
  PageSpace.sort ⟨self.available ++ [available], self.block_ids ++ [bid]⟩

/-- Source `PageSpace::seek` (slotbox.rs:458). -/
def PageSpace.seek (self : PageSpace) (pid : Nat) : Option Nat :=
  self.block_ids.findIdx? (fun bid => bid == pid)

/-- Source `PageSpace::update_page` (slotbox.rs:463): `false` if the page is
not in this relation's vectors; otherwise drop the entry (page now
empty) or record the new free space, re-sort, and report `true`. -/
def PageSpace.update_page (self : PageSpace) (pid : Nat) (available : Nat)
    (is_empty : Bool) : Bool × PageSpace :=
  match self.seek pid with
  | Option.none => (false, self)
  | some index =>
      let ps : PageSpace :=
        if is_empty then
          ⟨self.available.eraseIdx index, self.block_ids.eraseIdx index⟩
        else
          ⟨self.available.set index available, self.block_ids⟩
      (true, ps.sort)

structure TupleId where
  page : Nat
  slot : Nat
deriving DecidableEq

/-- The allocator state reached by the free path: the pages by id, the
per-relation `available_page_space` (sparse, in ascending relation
order, as `SparseChunk` iterates), and the block ids handed back to
the buffer pool by `pool.free`. -/
structure SlotBox where
  pages : List (Nat × SlottedPage)
  available_page_space : List (Nat × PageSpace)
  freed_blocks : List Nat
deriving DecidableEq

/-- Source `Inner::report_free` (slotbox.rs:402).  The source's loop body
ends in an unconditional `return`, so only the **first** relation's
`PageSpace` is ever consulted: if that one does not own the page,
nothing is updated, no block is freed, and even the
"page not found" log line after the loop is unreachable. -/
def Inner.report_free (sb : SlotBox) (pid : Nat) (new_size : Nat)
    (is_empty : Bool) : SlotBox :=
  match sb.available_page_space with
  | [] => sb
  | (rid, ps) :: rest =>
      let fp := ps.update_page pid new_size is_empty
      if fp.1 then
        { sb with
          available_page_space := (rid, fp.2) :: rest
          freed_blocks := if is_empty then pid :: sb.freed_blocks else sb.freed_blocks }
      else
        { sb with available_page_space := (rid, fp.2) :: rest }

/-- Source `Inner::do_remove` (slotbox.rs:307). -/
def Inner.do_remove (sb : SlotBox) (id : TupleId) : Option SlotBox :=
  match lookupA sb.pages id.page with
  | Option.none => Option.none
  | some page =>
      match page.remove_slot id.slot with
      | Option.none => Option.none
      | some (new_free, _, is_empty, page1) =>
          some (Inner.report_free
            { sb with pages := insertA sb.pages id.page page1 }
            id.page new_free is_empty)

/-- Source `SlotBox::dncount` (slotbox.rs:131): decrement the slot refcount;
on zero, take the remove/free path. -/
def SlotBox.dncount (sb : SlotBox) (id : TupleId) : Option SlotBox :=
  match lookupA sb.pages id.page with
  | Option.none => Option.none
  | some page =>
      match page.dncount id.slot with
      | Option.none => Option.none
      | some (became_zero, page1) =>
          let sb1 := { sb with pages := insertA sb.pages id.page page1 }
          if became_zero then Inner.do_remove sb1 id else some sb1

/-! ### Claim C7 -/

/-- A page of relation 0. -/
def c7Page1 : SlottedPage := ⟨4096, [⟨50, 1, true⟩]⟩

/-- A page of relation 1 holding one tuple with refcount 1. -/
def c7Page2 : SlottedPage := ⟨4096, [⟨100, 1, true⟩]⟩

/-- Relation 0 owns page 1. -/
def c7PS0 : PageSpace := ⟨[3000], [1]⟩

/-- Relation 1 owns page 2. -/
def c7PS1 : PageSpace := ⟨[3980], [2]⟩

def c7Box : SlotBox :=
  ⟨[(1, c7Page1), (2, c7Page2)], [(0, c7PS0), (1, c7PS1)], []⟩

/-- Claim C7 fails on the code: dropping the last reference to the
tuple on relation 1's page 2 tombstones the slot, but `report_free`
gives up after relation 0 (the first `available_page_space` entry),
so no `PageSpace` records the freed bytes and the now-empty page's
block is never released — even though relation 1's `PageSpace` would
have matched (second conjunct).  The last conjunct shows generally
that `report_free` touches only the first relation's entry, leaving
every other relation's `PageSpace` unchanged. -/
theorem report_free_reaches_only_first_relation :
    (SlotBox.dncount c7Box ⟨2, 0⟩).map
        (fun sb => (sb.available_page_space, sb.freed_blocks)) =
      some ([(0, c7PS0), (1, c7PS1)], []) ∧
    c7PS1.update_page 2 4096 true = (true, ⟨[], []⟩) ∧
    (∀ pages freed r0 ps0 rest pid sz em,
      (Inner.report_free ⟨pages, (r0, ps0) :: rest, freed⟩ pid sz em).available_page_space
        = (r0, (ps0.update_page pid sz em).2) :: rest) := by
  refine ⟨by decide, by decide, fun pages freed r0 ps0 rest pid sz em => ?_⟩
  cases h : (ps0.update_page pid sz em).1 <;> simp [Inner.report_free, h]

end Moor
